import Mathlib

/-!
Shallow embedding of the incremental fetch-dedup-upsert pipeline of the
`financial-bad-news` repository (files `repository.py`, `pipeline.py`,
`filters.py`, `classification.py`), together with theorems settling the
frozen claims about that code.

Modelling conventions:
* SQLAlchemy rows become a Lean structure `Article`; the persisted store is a
  `List Article` kept in ascending insertion (`id`) order, so "order by id
  desc" is `List.reverse` and "most recently inserted" is the end of the list.
* Python `datetime` values (always naive UTC in this code) are modelled by
  their epoch seconds as `Int`; `datetime.fromtimestamp` is strictly monotone,
  so every comparison in the source corresponds exactly to the `Int`
  comparison, and `replace(hour=0, minute=0, second=0, microsecond=0)` on a
  UTC instant is flooring to a multiple of 86400.
* Python floats (sentiment scores, confidences) are modelled by `ℚ`.
* The 64-bit blake2b token digest is an abstract parameter
  `hash : String → Nat`; the source only needs a deterministic map from
  tokens to 64-bit values (bits ≥ 64 are never inspected by `_simhash`,
  which only tests bit indices 0..63).
-/

namespace FinancialBadNews

/-- Truthiness of a Python `str | None` value: `None` and `""` are falsy. -/
def str_truthy : Option String → Bool
  | none => false
  | some s => s ≠ ""

/-- Python `str.lower()` (character-wise; this repository's data only
exercises the ASCII case mapping). -/
def py_lower (s : String) : String :=
  String.mk (s.toList.map Char.toLower)

/-- Python `str.strip()` with no argument: drop leading and trailing
whitespace. -/
def py_trim (s : String) : String :=
  String.mk
    (((s.toList.dropWhile Char.isWhitespace).reverse.dropWhile
        Char.isWhitespace).reverse)

/-- One step of `py_words`: accumulate finished words and the reversed
current word. -/
def py_words_step (acc : List String × List Char) (c : Char) :
    List String × List Char :=
  if c.isWhitespace then
    match acc.2 with
    | [] => (acc.1, [])
    | w => (acc.1 ++ [String.mk w.reverse], [])
  else (acc.1, c :: acc.2)

/-- Python `text.split()`: split on whitespace runs, dropping empty pieces. -/
def py_words (s : String) : List String :=
  let out := s.toList.foldl py_words_step ([], [])
  match out.2 with
  | [] => out.1
  | w => out.1 ++ [String.mk w.reverse]

/-- `_normalize_text`: `" ".join(text.split())` followed by `.strip()` (the
final strip is a no-op after the join). -/
def normalize_text (s : String) : String :=
  String.intercalate " " (py_words s)

/-- Fuel-driven bit count; the fuel bounds the number of halvings. -/
def pop_count_aux : Nat → Nat → Nat
  | 0, _ => 0
  | fuel + 1, n => if n = 0 then 0 else n % 2 + pop_count_aux fuel (n / 2)

/-- Number of set bits of a natural number (Python `int.bit_count`); `n`
halvings are always enough fuel. -/
def pop_count (n : Nat) : Nat :=
  pop_count_aux n n

/-- Value of a hexadecimal digit character, upper or lower case. -/
def hex_char_value (c : Char) : Option Nat :=
  if '0' ≤ c ∧ c ≤ '9' then some (c.toNat - '0'.toNat)
  else if 'a' ≤ c ∧ c ≤ 'f' then some (c.toNat - 'a'.toNat + 10)
  else if 'A' ≤ c ∧ c ≤ 'F' then some (c.toNat - 'A'.toNat + 10)
  else none

/-- Python `int(s, 16)` restricted to plain strings of hex digits (the only
form this program ever stores); any other string fails (`ValueError`). -/
def parse_hex (s : String) : Option Nat :=
  if s = "" then none
  else
    s.toList.foldl
      (fun acc c =>
        match acc, hex_char_value c with
        | some a, some v => some (16 * a + v)
        | _, _ => none)
      (some 0)

/-- Lower-case hex digit for a value `0..15` (digits of Python `"%x"`). -/
def hex_digit_char (d : Nat) : Char :=
  if d < 10 then Char.ofNat ('0'.toNat + d) else Char.ofNat ('a'.toNat + (d - 10))

/-- Fuel-driven hex digit expansion, most significant digit first. -/
def nat_hex_digits_aux : Nat → Nat → List Char
  | 0, n => [hex_digit_char n]
  | fuel + 1, n =>
    if n < 16 then [hex_digit_char n]
    else nat_hex_digits_aux fuel (n / 16) ++ [hex_digit_char (n % 16)]

/-- Hex digit list of a natural number, most significant first (no padding);
`n` divisions by 16 are always enough fuel. -/
def nat_hex_digits (n : Nat) : List Char :=
  nat_hex_digits_aux n n

/-- Left-pad a list with `c` up to length `n` (Python minimum field width). -/
def left_pad (c : Char) (n : Nat) (l : List Char) : List Char :=
  List.replicate (n - l.length) c ++ l

/-! ### Fingerprint engine (`repository.py`) -/

def SIMHASH_BITS : Nat := 64
def SIMHASH_FUZZY_LOWER_BITS : Nat := 8
def SIMHASH_MATCH_THRESHOLD : Nat := 24
def SIMHASH_CANDIDATE_LIMIT : Nat := 500

/-- A `collections.Counter[str]` with the source's iteration order: an
association list in first-insertion order, every key distinct. -/
def bump_token (c : List (String × Nat)) (k : String) : List (String × Nat) :=
  if c.any (fun p => p.1 = k) then
    c.map (fun p => if p.1 = k then (p.1, p.2 + 1) else p)
  else c ++ [(k, 1)]

/-- Characters `i, i+1, ..., i+len-1` of `s` (Python slice `s[i:i+len]`). -/
def str_slice (s : String) (i len : Nat) : String :=
  String.mk ((s.toList.drop i).take len)

/-- `_build_simhash_tokens`: words, single characters, bigrams, and either
the whole condensed string (length ≤ 3) or trigrams. -/
def build_simhash_tokens (text : String) : List (String × Nat) :=
  let normalized := normalize_text text
  if normalized = "" then []
  else
    let t1 := (py_words normalized).foldl
      (fun c w => if w ≠ "" then bump_token c w else c) []
    let condensed := String.mk (normalized.toList.filter (· ≠ ' '))
    if condensed = "" then t1
    else
      let t2 := condensed.toList.foldl
        (fun c ch => bump_token c (String.singleton ch)) t1
      let n := condensed.length
      let t3 :=
        if 2 ≤ n then
          (List.range (n - 1)).foldl
            (fun c i => bump_token c (str_slice condensed i 2)) t2
        else t2
      if n ≤ 3 then bump_token t3 condensed
      else
        (List.range (n - 2)).foldl
          (fun c i => bump_token c (str_slice condensed i 3)) t3

/-- The signed frequency-weighted sum accumulated at one bit position:
`+weight` when the token hash has the bit set, `-weight` otherwise. -/
def bit_sum (hash : String → Nat) (tokens : List (String × Nat)) (i : Nat) : Int :=
  tokens.foldl
    (fun acc p => if (hash p.1).testBit i then acc + (p.2 : Int) else acc - (p.2 : Int))
    0

/-- `_simhash`: `None` on an empty counter; otherwise set each of the 64 bits
whose accumulated sum is strictly positive, then clear the lowest 8 bits
(`fingerprint &= ~((1 << 8) - 1)`, rendered as shift-right-then-left). -/
def simhash (hash : String → Nat) (tokens : List (String × Nat)) : Option Nat :=
  if tokens.isEmpty then none
  else
    let raw := (List.range SIMHASH_BITS).foldl
      (fun fp i => if 0 < bit_sum hash tokens i then fp ||| (1 <<< i) else fp) 0
    some ((raw >>> SIMHASH_FUZZY_LOWER_BITS) <<< SIMHASH_FUZZY_LOWER_BITS)

/-- `_format_simhash`: Python `f"{fingerprint:016x}"`. -/
def format_simhash : Option Nat → Option String
  | none => none
  | some fp => some (String.mk (left_pad '0' (SIMHASH_BITS / 4) (nat_hex_digits fp)))

/-- `_simhash_distance`: parse both hex strings, XOR, count set bits;
a parse failure (`ValueError`) yields the full width 64. -/
def simhash_distance (hex_a hex_b : String) : Nat :=
  match parse_hex hex_a, parse_hex hex_b with
  | some a, some b => pop_count (a ^^^ b)
  | _, _ => SIMHASH_BITS

/-! ### Data model (`models.py`, feed items) -/

/-- The value of a feed item's `"time"` key: an int (floats with a fractional
part do not occur in this feed and are subsumed by `num`), a string, a missing
key (`None`), or some other JSON value. -/
inductive TimeField where
  | num (t : Int)
  | str (s : String)
  | absent
  | other
deriving DecidableEq, Repr

/-- A raw feed item (`item` dict of a TopHub page). -/
structure FeedItem where
  title : Option String
  description : Option String
  url : Option String
  thumbnail : Option String
  extra : Option String
  time : TimeField
deriving DecidableEq, Repr

/-- A persisted `NewsArticle` row.  The surrogate `id` is the position in the
store list (ascending insertion order), so it is not a field here. -/
structure Article where
  title : String
  description : Option String
  url : String
  thumbnail : Option String
  extra : Option String
  content_fingerprint : Option String
  source_timestamp : Int
  fetched_at : Int
  matched_keywords : Option String
  local_sentiment_score : Option ℚ
  local_is_negative : Option Bool
  llm_classification : Option String
  llm_confidence : Option ℚ
  reason : Option String
  raw_payload : FeedItem
deriving DecidableEq, Repr

instance : Inhabited Article :=
  ⟨{ title := "", description := none, url := "", thumbnail := none,
     extra := none, content_fingerprint := none, source_timestamp := 0,
     fetched_at := 0, matched_keywords := none, local_sentiment_score := none,
     local_is_negative := none, llm_classification := none,
     llm_confidence := none, reason := none,
     raw_payload := { title := none, description := none, url := none,
                      thumbnail := none, extra := none,
                      time := TimeField.absent } }⟩

/-! ### Near-duplicate locator and upsert engine (`repository.py`)

Lookups return the index of the matching row in the store list, standing for
the row identity that SQLAlchemy returns. -/

/-- `select(NewsArticle).where(NewsArticle.url == url)`, first match. -/
def find_by_url (store : List Article) (url : String) : Option Nat :=
  store.findIdx? (fun r => r.url == url)

/-- The candidate window of the fuzzy scan: rows whose fingerprint is not
NULL, ordered by descending id, limited to `SIMHASH_CANDIDATE_LIMIT`.  Each
candidate is paired with its id (store index). -/
def fuzzy_candidates (store : List Article) : List (Nat × Article) :=
  ((store.enum.filter (fun p => p.2.content_fingerprint.isSome)).reverse).take
    SIMHASH_CANDIDATE_LIMIT

/-- One iteration of the minimum-distance loop of `_find_similar_article`:
skip a candidate with a falsy fingerprint, otherwise keep the closest
candidate seen so far, where `best_distance` starts at `SIMHASH_BITS + 1` and
only a strictly smaller distance replaces the current best. -/
def fuzzy_scan_step (fingerprint : String) (best : Option (Nat × Nat))
    (p : Nat × Article) : Option (Nat × Nat) :=
  match p.2.content_fingerprint with
  | none => best
  | some cfp =>
    if cfp = "" then best
    else
      let d := simhash_distance fingerprint cfp
      let best_distance := match best with
        | none => SIMHASH_BITS + 1
        | some q => q.2
      if d < best_distance then some (p.1, d) else best

/-- The minimum-distance loop of `_find_similar_article` over the candidate
window, returning the closest candidate's id and distance. -/
def fuzzy_scan (fingerprint : String) (cands : List (Nat × Article)) :
    Option (Nat × Nat) :=
  cands.foldl (fuzzy_scan_step fingerprint) none

/-- `_find_similar_article`: exact fingerprint match first (short-circuit),
otherwise the bounded fuzzy scan, accepted iff the minimum distance is within
`SIMHASH_MATCH_THRESHOLD`. -/
def find_similar_article (store : List Article) (fingerprint : String) :
    Option Nat :=
  match store.findIdx? (fun r => r.content_fingerprint == some fingerprint) with
  | some i => some i
  | none =>
    match fuzzy_scan fingerprint (fuzzy_candidates store) with
    | some (i, d) => if d ≤ SIMHASH_MATCH_THRESHOLD then some i else none
    | none => none

/-- `_compute_content_fingerprint`: join the truthy, stripped title and
description, normalize, tokenize, simhash, format. -/
def compute_content_fingerprint (hash : String → Nat) (article : Article) :
    Option String :=
  let parts :=
    (if article.title ≠ "" then [py_trim article.title] else []) ++
      (match article.description with
       | some d => if d ≠ "" then [py_trim d] else []
       | none => [])
  if parts = [] then none
  else
    let normalized := normalize_text (String.intercalate " " parts)
    if normalized = "" then none
    else format_simhash (simhash hash (build_simhash_tokens normalized))

/-- `_ensure_article_fingerprint`: keep a truthy stored fingerprint, else
compute one and store it when truthy; also return the fingerprint used. -/
def ensure_article_fingerprint (hash : String → Nat) (article : Article) :
    Article × Option String :=
  if str_truthy article.content_fingerprint then (article, article.content_fingerprint)
  else
    match compute_content_fingerprint hash article with
    | some f =>
      if f ≠ "" then ({ article with content_fingerprint := some f }, some f)
      else (article, some f)
    | none => (article, none)

/-- `_locate_existing_article`: fingerprint match (when a truthy fingerprint
is available) with fallback to the exact-url lookup. -/
def locate_existing_article (store : List Article) (article : Article)
    (fingerprint : Option String) : Option Nat :=
  match fingerprint with
  | some f =>
    if f ≠ "" then
      match find_similar_article store f with
      | some i => some i
      | none => find_by_url store article.url
    else find_by_url store article.url
  | none => find_by_url store article.url

/-- One iteration of the merge loop of `upsert_article`: compare the
candidate's value of one field against the accumulated existing row; copy it
and mark `updated` when it differs (`getattr`/`setattr` on one field name). -/
def apply_diff {β : Type} [DecidableEq β] (get : Article → β)
    (set : Article → β → Article) (article : Article) (acc : Article × Bool) :
    Article × Bool :=
  let new_value := get article
  if new_value ≠ get acc.1 then (set acc.1 new_value, true) else acc

/-- The field-by-field merge loop of `upsert_article`: copy each of the 13
mutable fields whose candidate value differs onto the existing row, recording
whether anything changed.  Field order follows the source tuple. -/
def merge_article (existing article : Article) : Article × Bool :=
  let acc := (existing, false)
  let acc := apply_diff (fun r => r.title) (fun e v => { e with title := v }) article acc
  let acc := apply_diff (fun r => r.description) (fun e v => { e with description := v }) article acc
  let acc := apply_diff (fun r => r.thumbnail) (fun e v => { e with thumbnail := v }) article acc
  let acc := apply_diff (fun r => r.extra) (fun e v => { e with extra := v }) article acc
  let acc := apply_diff (fun r => r.content_fingerprint) (fun e v => { e with content_fingerprint := v }) article acc
  let acc := apply_diff (fun r => r.source_timestamp) (fun e v => { e with source_timestamp := v }) article acc
  let acc := apply_diff (fun r => r.matched_keywords) (fun e v => { e with matched_keywords := v }) article acc
  let acc := apply_diff (fun r => r.local_sentiment_score) (fun e v => { e with local_sentiment_score := v }) article acc
  let acc := apply_diff (fun r => r.local_is_negative) (fun e v => { e with local_is_negative := v }) article acc
  let acc := apply_diff (fun r => r.llm_classification) (fun e v => { e with llm_classification := v }) article acc
  let acc := apply_diff (fun r => r.llm_confidence) (fun e v => { e with llm_confidence := v }) article acc
  let acc := apply_diff (fun r => r.reason) (fun e v => { e with reason := v }) article acc
  let acc := apply_diff (fun r => r.raw_payload) (fun e v => { e with raw_payload := v }) article acc
  acc

/-- `upsert_article`: ensure a fingerprint, locate an existing match; insert
the candidate when none is found, otherwise merge differing fields in place.
Returns the new store and the `(inserted, updated)` pair. -/
def upsert_article (hash : String → Nat) (store : List Article)
    (article : Article) : List Article × Bool × Bool :=
  let ensured := ensure_article_fingerprint hash article
  match locate_existing_article store ensured.1 ensured.2 with
  | none => (store ++ [ensured.1], true, false)
  | some i =>
    let merged := merge_article (store.getD i default) ensured.1
    (store.set i merged.1, false, merged.2)

/-- `get_latest_timestamp`: greatest `source_timestamp` in the store
(`order by source_timestamp desc limit 1`), `None` on an empty store. -/
def get_latest_timestamp (store : List Article) : Option Int :=
  store.foldl
    (fun m r => some (match m with
      | none => r.source_timestamp
      | some v => max v r.source_timestamp))
    none

/-- `delete_articles_since`: delete every row with `source_timestamp >= since`
and report the number of rows deleted. -/
def delete_articles_since (since : Int) (store : List Article) :
    List Article × Nat :=
  (store.filter (fun r => decide (r.source_timestamp < since)),
   store.countP (fun r => decide (since ≤ r.source_timestamp)))

/-! ### Keyword filter (`filters.py`) -/

/-- Python substring containment `needle in haystack` on code points. -/
def str_contains (haystack needle : String) : Bool :=
  let h := haystack.toList
  (List.range (h.length + 1)).any
    (fun i => List.isPrefixOf needle.toList (h.drop i))

/-- `match_keywords`: collect, in configuration order, the stripped form of
every keyword whose stripped lower-case form is non-empty and occurs in the
lower-cased text. -/
def match_keywords (text : String) (keywords : List String) : List String :=
  let lowered := py_lower text
  keywords.foldl
    (fun matched keyword =>
      let normalized := py_lower (py_trim keyword)
      if normalized ≠ "" ∧ str_contains lowered normalized then
        matched ++ [py_trim keyword]
      else matched)
    []

/-- `extract_item_text`: join the truthy title and description with `"。"`. -/
def extract_item_text (item : FeedItem) : String :=
  let parts :=
    (match item.title with
     | some t => if t ≠ "" then [t] else []
     | none => []) ++
    (match item.description with
     | some d => if d ≠ "" then [d] else []
     | none => [])
  String.intercalate "。" parts

/-! ### LLM classifier (`classification.py`)

`LLMClassifier.classify` performs one HTTP attempt whose outcome we model as
a value of `LLMResponse`; every failure mode of the attempt is caught by the
method's `except Exception` handler. -/

/-- Outcome of the single classification attempt:
* `transport_failure` — `httpx.post` raised, `raise_for_status` raised, or
  the body was not JSON;
* `malformed_payload` — `_extract_content` found no `choices[0].message.content`
  string and raised `ValueError`;
* `undecodable_content` — `_parse_json_content` could not parse a JSON object
  and `json.loads` raised;
* `decoded label confidence` — a JSON object was obtained; `label` is its
  `"label"` value as a string when present, `confidence` its `"confidence"`
  value (`some (some q)` = convertible to float `q`, `some none` = present but
  not convertible, `none` = absent, which Python defaults to `0.0`). -/
inductive LLMResponse where
  | transport_failure
  | malformed_payload
  | undecodable_content
  | decoded (label : Option String) (confidence : Option (Option ℚ))
deriving DecidableEq, Repr

/-- Whether the attempt failed (all branches the outer `except` turns into
the sentinel). -/
def llm_response_failed : LLMResponse → Bool
  | LLMResponse.transport_failure => true
  | LLMResponse.malformed_payload => true
  | LLMResponse.undecodable_content => true
  | LLMResponse.decoded _ _ => false

/-- `LLMClassifier.classify`: a total function — the Python method catches
every exception of the attempt.  An unconfigured (falsy) API key yields
`("not_configured", 0.0)`; any failed attempt yields `("error", 0.0)`;
a decoded object yields its lower-cased label (default `"unknown"`) and its
confidence coerced to a number (default `0.0`). -/
def llm_classify (api_key : String) (response : LLMResponse) : String × ℚ :=
  if api_key = "" then ("not_configured", 0)
  else
    match response with
    | LLMResponse.transport_failure => ("error", 0)
    | LLMResponse.malformed_payload => ("error", 0)
    | LLMResponse.undecodable_content => ("error", 0)
    | LLMResponse.decoded label confidence =>
      (py_lower (label.getD "unknown"),
       match confidence with
       | some (some q) => q
       | some none => 0
       | none => 0)

/-! ### Pipeline orchestrator (`pipeline.py`) -/

/-- `_parse_timestamp`: epoch seconds as number, or a string of digits
(`str.isdigit`); anything else is unparseable. -/
def parse_timestamp : TimeField → Option Int
  | TimeField.num t => some t
  | TimeField.str s =>
    if s ≠ "" ∧ s.toList.all Char.isDigit then
      some ((s.toList.foldl (fun n c => n * 10 + (c.toNat - '0'.toNat)) 0 : Nat) : Int)
    else none
  | TimeField.absent => none
  | TimeField.other => none

/-- `datetime.utcnow().replace(hour=0, minute=0, second=0, microsecond=0)`
on epoch seconds: floor to a multiple of 86400. -/
def start_of_utc_day (now : Int) : Int :=
  now - now % 86400

/-- The effective floor of `run_pipeline` (lines 66-69): the caller-supplied
minimum timestamp; only when it is absent and the store is empty, the start
of the current UTC day. -/
def effective_floor (min_timestamp last_timestamp : Option Int) (now : Int) :
    Option Int :=
  match min_timestamp, last_timestamp with
  | none, none => some (start_of_utc_day now)
  | _, _ => min_timestamp

/-- Deterministic two-decimal rendering standing in for Python `"%.2f"`
(binary-float rounding is not representable here; no claim depends on the
digits, only on determinism). -/
def format_fixed2 (q : ℚ) : String :=
  let cents : Int := Int.ediv (q.num * 200 + (q.den : Int)) (2 * (q.den : Int))
  let a := cents.natAbs
  let frac := a % 100
  (if cents < 0 then "-" else "") ++ toString (a / 100) ++ "." ++
    (if frac < 10 then "0" ++ toString frac else toString frac)

/-- `_LLM_LABEL_MAP` lookup with default. -/
def llm_label_text (label : String) : String :=
  let key := py_lower label
  if key = "negative" then "负面"
  else if key = "neutral" then "中性"
  else if key = "positive" then "正面"
  else label

/-- `_build_reason`. -/
def build_reason (matched : List String) (local_score : ℚ)
    (local_negative : Bool) (llm_label : String) (llm_confidence : ℚ) :
    String :=
  let parts :=
    (if matched ≠ [] then ["关键词命中：" ++ String.intercalate "," matched] else []) ++
    ["本地情感：" ++ format_fixed2 local_score ++ " (" ++
      (if local_negative then "负面" else "非负面") ++ ")"] ++
    (if llm_label ≠ "" then
      ["LLM 判定：" ++ llm_label_text llm_label ++ " (置信度 " ++
        format_fixed2 llm_confidence ++ ")"]
     else [])
  String.intercalate "；" parts

/-- The external collaborators and configuration a run closes over. -/
structure PipelineEnv where
  keywords : List String
  token_hash : String → Nat
  local_classify : String → ℚ × Bool
  llm_classify : String → String × ℚ
  now : Int

/-- One page payload of the search feed: the extracted item list and the
optional `totalpage` count. -/
structure Page where
  items : List FeedItem
  totalpage : Option Int
deriving Repr

/-- The mutable state of a run: the store plus the four counters. -/
structure RunState where
  store : List Article
  fetched : Nat
  processed : Nat
  inserted : Nat
  updated : Nat
deriving DecidableEq, Repr

/-- `last_timestamp and article_time <= last_timestamp` (a datetime is always
truthy). -/
def le_last (last : Option Int) (t : Int) : Bool :=
  match last with
  | some lt => decide (t ≤ lt)
  | none => false

/-- `effective_min_timestamp and article_time < effective_min_timestamp`. -/
def below_floor (floor : Option Int) (t : Int) : Bool :=
  match floor with
  | some f => decide (t < f)
  | none => false

/-- The `NewsArticle(...)` candidate built for a processed item (lines
128-144); the classifier calls are pure functions of the item text, so
evaluating them here is equivalent to the source's evaluation order. -/
def pipeline_article (env : PipelineEnv) (item : FeedItem)
    (article_time : Int) (u : String) : Article :=
  let text := extract_item_text item
  let matched := match_keywords text env.keywords
  let local_result := env.local_classify text
  let llm_result := env.llm_classify text
  let reason := build_reason matched local_result.1 local_result.2
    llm_result.1 llm_result.2
  { title := item.title.getD "",
    description := some (item.description.getD ""),
    url := u,
    thumbnail := item.thumbnail,
    extra := item.extra,
    content_fingerprint := none,
    source_timestamp := article_time,
    fetched_at := env.now,
    matched_keywords :=
      if matched ≠ [] then some (String.intercalate "," matched) else none,
    local_sentiment_score := some local_result.1,
    local_is_negative := some local_result.2,
    llm_classification := some llm_result.1,
    llm_confidence := some llm_result.2,
    reason := some reason,
    raw_payload := item }

/-- The body of the per-item loop of `run_pipeline` (lines 91-161), acting on
the run state paired with the page's `stop_paging` flag. -/
def item_step (env : PipelineEnv) (last_timestamp effective_min_timestamp : Option Int)
    (st : RunState × Bool) (item : FeedItem) : RunState × Bool :=
  let s := { st.1 with fetched := st.1.fetched + 1 }
  let stop := st.2
  match parse_timestamp item.time with
  | none => (s, stop)
  | some article_time =>
    if le_last last_timestamp article_time then (s, true)
    else if below_floor effective_min_timestamp article_time then (s, true)
    else
      let text := extract_item_text item
      let matched := match_keywords text env.keywords
      if matched = [] then (s, stop)
      else
        match item.url with
        | none => (s, stop)
        | some u =>
          if u = "" then (s, stop)
          else
            let s := { s with processed := s.processed + 1 }
            let result := upsert_article env.token_hash s.store
              (pipeline_article env item article_time u)
            let s := { s with
              store := result.1
              inserted := s.inserted + (if result.2.1 then 1 else 0)
              updated := s.updated + (if result.2.2 then 1 else 0) }
            (s, stop)

/-- Process every item of a page in feed order (the loop never breaks out
early; `stop_paging` only accumulates). -/
def page_step (env : PipelineEnv) (last_timestamp effective_min_timestamp : Option Int)
    (st : RunState × Bool) (items : List FeedItem) : RunState × Bool :=
  items.foldl (item_step env last_timestamp effective_min_timestamp) st

/-- The page loop of `run_pipeline` (`for page in count(1)`): an empty page
ends the run; after a full page, a marked `stop_paging` ends the run; then
the `totalpage` bound is checked; otherwise the next page is requested.
The feed is modelled as the finite list of successive page payloads; past its
end the client returns no items, which ends the run like an empty page. -/
def run_pages (env : PipelineEnv) (last_timestamp effective_min_timestamp : Option Int) :
    List Page → Nat → RunState → RunState
  | [], _, s => s
  | page :: rest, page_no, s =>
    if page.items.isEmpty then s
    else
      let out := page_step env last_timestamp effective_min_timestamp (s, false) page.items
      if out.2 then out.1
      else
        match page.totalpage with
        | some tp =>
          if (page_no : Int) ≥ tp then out.1
          else run_pages env last_timestamp effective_min_timestamp rest (page_no + 1) out.1
        | none => run_pages env last_timestamp effective_min_timestamp rest (page_no + 1) out.1

/-- `run_pipeline`: query the latest persisted timestamp, compute the
effective floor, drive the page loop from page 1, and return the final state
(store plus the `{fetched, processed, inserted, updated}` statistics). -/
def run_pipeline (env : PipelineEnv) (pages : List Page)
    (min_timestamp : Option Int) (store : List Article) : RunState :=
  let last_timestamp := get_latest_timestamp store
  let floor := effective_floor min_timestamp last_timestamp env.now
  run_pages env last_timestamp floor pages 1
    { store := store, fetched := 0, processed := 0, inserted := 0, updated := 0 }

/-- An item marks `stop_paging`: its timestamp parses and is `≤ last_timestamp`
or below the effective floor. -/
def stop_trigger (last_timestamp effective_min_timestamp : Option Int)
    (item : FeedItem) : Bool :=
  match parse_timestamp item.time with
  | none => false
  | some t => le_last last_timestamp t || below_floor effective_min_timestamp t

/-- An item reaches the upsert: parseable timestamp that is new and above the
floor, at least one keyword matched, and a truthy url. -/
def qualifies (env : PipelineEnv) (last_timestamp effective_min_timestamp : Option Int)
    (item : FeedItem) : Bool :=
  match parse_timestamp item.time with
  | none => false
  | some t =>
    !le_last last_timestamp t && !below_floor effective_min_timestamp t &&
    !(match_keywords (extract_item_text item) env.keywords).isEmpty &&
    (match item.url with
     | some u => u ≠ ""
     | none => false)

/-! ### Shared helper lemmas -/

/-- Splitting the deletion count against the kept rows. -/
lemma delete_count_eq (since : Int) (store : List Article) :
    (delete_articles_since since store).2 +
      (delete_articles_since since store).1.length = store.length := by
  simp only [delete_articles_since]
  induction store with
  | nil => rfl
  | cons a l ih =>
    by_cases h : since ≤ a.source_timestamp
    · have h2 : ¬a.source_timestamp < since := not_lt.mpr h
      simp [List.countP_cons, List.filter_cons, h, h2]
      omega
    · have h2 : a.source_timestamp < since := not_le.mp h
      simp [List.countP_cons, List.filter_cons, h, h2]
      omega

/-- Bits of the or-accumulating fold that builds the raw simhash. -/
lemma foldl_or_testBit (P : Nat → Prop) [DecidablePred P] (l : List Nat)
    (init j : Nat) :
    (l.foldl (fun fp i => if P i then fp ||| (1 <<< i) else fp) init).testBit j
      = (init.testBit j || (decide (j ∈ l) && decide (P j))) := by
  induction l generalizing init with
  | nil => simp
  | cons a l ih =>
    simp only [List.foldl_cons, ih, List.mem_cons]
    by_cases hj : j = a
    · subst hj
      by_cases hpa : P j
      · simp [hpa, Nat.testBit_lor, Nat.shiftLeft_eq, Nat.testBit_two_pow]
      · simp [hpa]
    · have hj' : a ≠ j := fun h => hj h.symm
      by_cases hpa : P a
      · simp [hpa, Nat.testBit_lor, Nat.shiftLeft_eq, Nat.testBit_two_pow, hj, hj']
      · simp [hpa, hj]

/-- Every natural whose bits at positions `≥ k` are all clear is `< 2 ^ k`. -/
lemma lt_two_pow_of_high_bits_clear {x k : Nat}
    (h : ∀ j, k ≤ j → x.testBit j = false) : x < 2 ^ k := by
  by_contra hge
  obtain ⟨i, hik, hbit⟩ := Nat.ge_two_pow_implies_high_bit_true (Nat.le_of_not_lt hge)
  exact absurd hbit (by simp [h i hik])

/-- Bit characterization of `simhash` on a non-empty token table. -/
lemma simhash_testBit (hash : String → Nat) (tokens : List (String × Nat))
    (h : tokens ≠ []) :
    ∃ fp, simhash hash tokens = some fp ∧
      ∀ j, fp.testBit j =
        (decide (SIMHASH_FUZZY_LOWER_BITS ≤ j) && decide (j < SIMHASH_BITS) &&
          decide (0 < bit_sum hash tokens j)) := by
  have hne : tokens.isEmpty = false := by
    cases tokens with
    | nil => exact absurd rfl h
    | cons a l => rfl
  refine ⟨((List.range SIMHASH_BITS).foldl
      (fun fp i => if 0 < bit_sum hash tokens i then fp ||| (1 <<< i) else fp) 0
      >>> SIMHASH_FUZZY_LOWER_BITS) <<< SIMHASH_FUZZY_LOWER_BITS,
    by simp [simhash, hne], ?_⟩
  intro j
  rw [Nat.testBit_shiftLeft]
  by_cases hj8 : SIMHASH_FUZZY_LOWER_BITS ≤ j
  · have h8 : decide (j ≥ SIMHASH_FUZZY_LOWER_BITS) = true := by
      simp [ge_iff_le, hj8]
    have hj : SIMHASH_FUZZY_LOWER_BITS + (j - SIMHASH_FUZZY_LOWER_BITS) = j := by
      omega
    have hmem : decide (j ∈ List.range SIMHASH_BITS) = decide (j < SIMHASH_BITS) :=
      decide_eq_decide.mpr (by simp [List.mem_range])
    rw [h8, Bool.true_and, Nat.testBit_shiftRight, hj, foldl_or_testBit, hmem]
    simp [Nat.zero_testBit]
  · have h8 : decide (j ≥ SIMHASH_FUZZY_LOWER_BITS) = false := by
      simp [ge_iff_le, hj8]
    rw [h8, Bool.false_and]
    simp [hj8]

/-- The raw and fuzzed simhash value is below `2 ^ 64`. -/
lemma simhash_lt (hash : String → Nat) (tokens : List (String × Nat))
    (fp : Nat) (_hfp : simhash hash tokens = some fp)
    (hbits : ∀ j, fp.testBit j =
      (decide (SIMHASH_FUZZY_LOWER_BITS ≤ j) && decide (j < SIMHASH_BITS) &&
        decide (0 < bit_sum hash tokens j))) : fp < 2 ^ 64 := by
  refine lt_two_pow_of_high_bits_clear (fun j hj => ?_)
  rw [hbits j]
  have : ¬j < SIMHASH_BITS := by simp [SIMHASH_BITS]; omega
  simp [this]

/-- The lower-case hex alphabet produced by `hex_digit_char`. -/
lemma hex_digit_char_mem (d : Nat) (h : d < 16) :
    hex_digit_char d ∈ "0123456789abcdef".toList := by
  interval_cases d <;> decide

/-- `hex_char_value` inverts `hex_digit_char` on digit values. -/
lemma hex_char_value_hex_digit_char (d : Nat) (h : d < 16) :
    hex_char_value (hex_digit_char d) = some d := by
  interval_cases d <;> decide

/-- Length bound for the fuel-driven hex expansion. -/
lemma nat_hex_digits_aux_length :
    ∀ fuel n k, 1 ≤ k → n < 16 ^ k → (nat_hex_digits_aux fuel n).length ≤ k := by
  intro fuel
  induction fuel with
  | zero => intro n k hk _; simpa [nat_hex_digits_aux] using hk
  | succ fuel ih =>
    intro n k hk hn
    by_cases h16 : n < 16
    · simpa [nat_hex_digits_aux, h16] using hk
    · have hk2 : 2 ≤ k := by
        by_contra hlt
        have : k = 1 := by omega
        subst this
        simp at hn
        omega
      have hdiv : n / 16 < 16 ^ (k - 1) := by
        have : n < 16 ^ (k - 1) * 16 := by
          have : 16 ^ (k - 1) * 16 = 16 ^ k := by
            rw [← pow_succ]
            congr 1
            omega
          omega
        omega
      have := ih (n / 16) (k - 1) (by omega) hdiv
      simp only [nat_hex_digits_aux, h16, if_false, List.length_append,
        List.length_cons, List.length_nil]
      omega

/-- Every character of the hex expansion is a lower-case hex digit, provided
the fuel covers the value. -/
lemma nat_hex_digits_aux_chars :
    ∀ fuel n, n < 16 ^ (fuel + 1) →
      ∀ c ∈ nat_hex_digits_aux fuel n, c ∈ "0123456789abcdef".toList := by
  intro fuel
  induction fuel with
  | zero =>
    intro n hn c hc
    simp only [nat_hex_digits_aux, List.mem_singleton] at hc
    subst hc
    exact hex_digit_char_mem n (by simpa using hn)
  | succ fuel ih =>
    intro n hn c hc
    by_cases h16 : n < 16
    · simp only [nat_hex_digits_aux, h16, if_true, List.mem_singleton] at hc
      subst hc
      exact hex_digit_char_mem n h16
    · simp only [nat_hex_digits_aux, h16, if_false, List.mem_append,
        List.mem_singleton] at hc
      rcases hc with hc | hc
      · have hdiv : n / 16 < 16 ^ (fuel + 1) := by
          have h1 : n < 16 ^ (fuel + 1) * 16 := by
            have h2 : 16 ^ (fuel + 1) * 16 = 16 ^ (fuel + 1 + 1) := by
              rw [← pow_succ]
            omega
          omega
        exact ih (n / 16) hdiv c hc
      · subst hc
        exact hex_digit_char_mem (n % 16) (Nat.mod_lt n (by omega))

/-- Numeric value of a hex digit list, most significant digit first. -/
def hex_digits_value (l : List Char) : Nat :=
  l.foldl (fun a c => 16 * a + (hex_char_value c).getD 0) 0

/-- The hex expansion folds back to the encoded value, provided the fuel
covers the value. -/
lemma nat_hex_digits_aux_value :
    ∀ fuel n, n < 16 ^ (fuel + 1) →
      hex_digits_value (nat_hex_digits_aux fuel n) = n := by
  intro fuel
  induction fuel with
  | zero =>
    intro n hn
    have h16 : n < 16 := by simpa using hn
    simp [hex_digits_value, nat_hex_digits_aux,
      hex_char_value_hex_digit_char n h16]
  | succ fuel ih =>
    intro n hn
    by_cases h16 : n < 16
    · simp [hex_digits_value, nat_hex_digits_aux, h16,
        hex_char_value_hex_digit_char n h16]
    · have hdiv : n / 16 < 16 ^ (fuel + 1) := by
        have h1 : n < 16 ^ (fuel + 1) * 16 := by
          have h2 : 16 ^ (fuel + 1) * 16 = 16 ^ (fuel + 1 + 1) := by
            rw [← pow_succ]
          omega
        omega
      have hv := ih (n / 16) hdiv
      simp only [hex_digits_value, nat_hex_digits_aux, h16, if_false,
        List.foldl_append, List.foldl_cons, List.foldl_nil] at hv ⊢
      rw [hv, hex_char_value_hex_digit_char (n % 16) (Nat.mod_lt n (by omega))]
      simp [Nat.div_add_mod]

/-- Leading `'0'` padding does not change the numeric value. -/
lemma hex_digits_value_pad (k : Nat) (l : List Char) :
    hex_digits_value (List.replicate k '0' ++ l) = hex_digits_value l := by
  have hzero : ∀ m, List.foldl (fun a c => 16 * a + (hex_char_value c).getD 0) 0
      (List.replicate m '0') = 0 := by
    intro m
    induction m with
    | zero => rfl
    | succ m ihm => simpa [List.replicate_succ, hex_char_value] using ihm
  simp [hex_digits_value, List.foldl_append, hzero k]

/-- A simple demonstration article used by concrete witnesses. -/
def mk_article (title url : String) (t : Int) : Article :=
  { (default : Article) with title := title, url := url, source_timestamp := t }

/-- Effect of the merge iteration for the `title` field. -/
lemma apply_diff_title (a : Article) (acc : Article × Bool) :
    apply_diff (fun r => r.title) (fun e v => { e with title := v }) a acc =
      ({ acc.1 with title := a.title },
        acc.2 || decide (a.title ≠ acc.1.title)) := by
  simp only [apply_diff]
  split
  · next h => simp [h]
  · next h =>
    have he := not_ne_iff.mp h
    simp [he]
/-- Effect of the merge iteration for the `description` field. -/
lemma apply_diff_description (a : Article) (acc : Article × Bool) :
    apply_diff (fun r => r.description) (fun e v => { e with description := v }) a acc =
      ({ acc.1 with description := a.description },
        acc.2 || decide (a.description ≠ acc.1.description)) := by
  simp only [apply_diff]
  split
  · next h => simp [h]
  · next h =>
    have he := not_ne_iff.mp h
    simp [he]
/-- Effect of the merge iteration for the `thumbnail` field. -/
lemma apply_diff_thumbnail (a : Article) (acc : Article × Bool) :
    apply_diff (fun r => r.thumbnail) (fun e v => { e with thumbnail := v }) a acc =
      ({ acc.1 with thumbnail := a.thumbnail },
        acc.2 || decide (a.thumbnail ≠ acc.1.thumbnail)) := by
  simp only [apply_diff]
  split
  · next h => simp [h]
  · next h =>
    have he := not_ne_iff.mp h
    simp [he]
/-- Effect of the merge iteration for the `extra` field. -/
lemma apply_diff_extra (a : Article) (acc : Article × Bool) :
    apply_diff (fun r => r.extra) (fun e v => { e with extra := v }) a acc =
      ({ acc.1 with extra := a.extra },
        acc.2 || decide (a.extra ≠ acc.1.extra)) := by
  simp only [apply_diff]
  split
  · next h => simp [h]
  · next h =>
    have he := not_ne_iff.mp h
    simp [he]
/-- Effect of the merge iteration for the `content_fingerprint` field. -/
lemma apply_diff_content_fingerprint (a : Article) (acc : Article × Bool) :
    apply_diff (fun r => r.content_fingerprint) (fun e v => { e with content_fingerprint := v }) a acc =
      ({ acc.1 with content_fingerprint := a.content_fingerprint },
        acc.2 || decide (a.content_fingerprint ≠ acc.1.content_fingerprint)) := by
  simp only [apply_diff]
  split
  · next h => simp [h]
  · next h =>
    have he := not_ne_iff.mp h
    simp [he]
/-- Effect of the merge iteration for the `source_timestamp` field. -/
lemma apply_diff_source_timestamp (a : Article) (acc : Article × Bool) :
    apply_diff (fun r => r.source_timestamp) (fun e v => { e with source_timestamp := v }) a acc =
      ({ acc.1 with source_timestamp := a.source_timestamp },
        acc.2 || decide (a.source_timestamp ≠ acc.1.source_timestamp)) := by
  simp only [apply_diff]
  split
  · next h => simp [h]
  · next h =>
    have he := not_ne_iff.mp h
    simp [he]
/-- Effect of the merge iteration for the `matched_keywords` field. -/
lemma apply_diff_matched_keywords (a : Article) (acc : Article × Bool) :
    apply_diff (fun r => r.matched_keywords) (fun e v => { e with matched_keywords := v }) a acc =
      ({ acc.1 with matched_keywords := a.matched_keywords },
        acc.2 || decide (a.matched_keywords ≠ acc.1.matched_keywords)) := by
  simp only [apply_diff]
  split
  · next h => simp [h]
  · next h =>
    have he := not_ne_iff.mp h
    simp [he]
/-- Effect of the merge iteration for the `local_sentiment_score` field. -/
lemma apply_diff_local_sentiment_score (a : Article) (acc : Article × Bool) :
    apply_diff (fun r => r.local_sentiment_score) (fun e v => { e with local_sentiment_score := v }) a acc =
      ({ acc.1 with local_sentiment_score := a.local_sentiment_score },
        acc.2 || decide (a.local_sentiment_score ≠ acc.1.local_sentiment_score)) := by
  simp only [apply_diff]
  split
  · next h => simp [h]
  · next h =>
    have he := not_ne_iff.mp h
    simp [he]
/-- Effect of the merge iteration for the `local_is_negative` field. -/
lemma apply_diff_local_is_negative (a : Article) (acc : Article × Bool) :
    apply_diff (fun r => r.local_is_negative) (fun e v => { e with local_is_negative := v }) a acc =
      ({ acc.1 with local_is_negative := a.local_is_negative },
        acc.2 || decide (a.local_is_negative ≠ acc.1.local_is_negative)) := by
  simp only [apply_diff]
  split
  · next h => simp [h]
  · next h =>
    have he := not_ne_iff.mp h
    simp [he]
/-- Effect of the merge iteration for the `llm_classification` field. -/
lemma apply_diff_llm_classification (a : Article) (acc : Article × Bool) :
    apply_diff (fun r => r.llm_classification) (fun e v => { e with llm_classification := v }) a acc =
      ({ acc.1 with llm_classification := a.llm_classification },
        acc.2 || decide (a.llm_classification ≠ acc.1.llm_classification)) := by
  simp only [apply_diff]
  split
  · next h => simp [h]
  · next h =>
    have he := not_ne_iff.mp h
    simp [he]
/-- Effect of the merge iteration for the `llm_confidence` field. -/
lemma apply_diff_llm_confidence (a : Article) (acc : Article × Bool) :
    apply_diff (fun r => r.llm_confidence) (fun e v => { e with llm_confidence := v }) a acc =
      ({ acc.1 with llm_confidence := a.llm_confidence },
        acc.2 || decide (a.llm_confidence ≠ acc.1.llm_confidence)) := by
  simp only [apply_diff]
  split
  · next h => simp [h]
  · next h =>
    have he := not_ne_iff.mp h
    simp [he]
/-- Effect of the merge iteration for the `reason` field. -/
lemma apply_diff_reason (a : Article) (acc : Article × Bool) :
    apply_diff (fun r => r.reason) (fun e v => { e with reason := v }) a acc =
      ({ acc.1 with reason := a.reason },
        acc.2 || decide (a.reason ≠ acc.1.reason)) := by
  simp only [apply_diff]
  split
  · next h => simp [h]
  · next h =>
    have he := not_ne_iff.mp h
    simp [he]
/-- Effect of the merge iteration for the `raw_payload` field. -/
lemma apply_diff_raw_payload (a : Article) (acc : Article × Bool) :
    apply_diff (fun r => r.raw_payload) (fun e v => { e with raw_payload := v }) a acc =
      ({ acc.1 with raw_payload := a.raw_payload },
        acc.2 || decide (a.raw_payload ≠ acc.1.raw_payload)) := by
  simp only [apply_diff]
  split
  · next h => simp [h]
  · next h =>
    have he := not_ne_iff.mp h
    simp [he]
/-- Closed form of the merge loop: the merged row carries the candidate's
value for each of the 13 mutable fields (and keeps everything else, notably
`url` and `fetched_at`), and the `updated` flag is the disjunction of the 13
field disequalities. -/
lemma merge_article_eq (e a : Article) :
    merge_article e a =
      ({ e with title := a.title, description := a.description, thumbnail := a.thumbnail, extra := a.extra, content_fingerprint := a.content_fingerprint, source_timestamp := a.source_timestamp, matched_keywords := a.matched_keywords, local_sentiment_score := a.local_sentiment_score, local_is_negative := a.local_is_negative, llm_classification := a.llm_classification, llm_confidence := a.llm_confidence, reason := a.reason, raw_payload := a.raw_payload },
        decide (a.title ≠ e.title) ||
        decide (a.description ≠ e.description) ||
        decide (a.thumbnail ≠ e.thumbnail) ||
        decide (a.extra ≠ e.extra) ||
        decide (a.content_fingerprint ≠ e.content_fingerprint) ||
        decide (a.source_timestamp ≠ e.source_timestamp) ||
        decide (a.matched_keywords ≠ e.matched_keywords) ||
        decide (a.local_sentiment_score ≠ e.local_sentiment_score) ||
        decide (a.local_is_negative ≠ e.local_is_negative) ||
        decide (a.llm_classification ≠ e.llm_classification) ||
        decide (a.llm_confidence ≠ e.llm_confidence) ||
        decide (a.reason ≠ e.reason) ||
        decide (a.raw_payload ≠ e.raw_payload)) := by
  simp only [merge_article, apply_diff_title, apply_diff_description,
    apply_diff_thumbnail, apply_diff_extra, apply_diff_content_fingerprint,
    apply_diff_source_timestamp, apply_diff_matched_keywords,
    apply_diff_local_sentiment_score, apply_diff_local_is_negative,
    apply_diff_llm_classification, apply_diff_llm_confidence,
    apply_diff_reason, apply_diff_raw_payload]
  simp

/-- `findIdx?` with an arbitrary start index: a hit is inside the list, at a
position where the predicate holds. -/
lemma findIdx?_go_some {α : Type} [Inhabited α] (p : α → Bool) :
    ∀ (l : List α) (s i : Nat), List.findIdx? p l s = some i →
      s ≤ i ∧ i - s < l.length ∧ p (l.getD (i - s) default) = true := by
  intro l
  induction l with
  | nil => intro s i h; simp [List.findIdx?] at h
  | cons x xs ih =>
    intro s i h
    rw [List.findIdx?_cons] at h
    by_cases hp : p x
    · rw [if_pos hp] at h
      have hsi : s = i := by injection h
      subst hsi
      simpa using hp
    · rw [if_neg hp] at h
      obtain ⟨h1, h2, h3⟩ := ih (s + 1) i h
      refine ⟨by omega, by simp only [List.length_cons]; omega, ?_⟩
      have hs : i - s = (i - (s + 1)) + 1 := by omega
      rw [hs]
      simpa using h3

/-- `findIdx?` from the start: a hit is a valid index satisfying the
predicate. -/
lemma findIdx?_some_getD {α : Type} [Inhabited α] (p : α → Bool)
    (l : List α) (i : Nat) (h : List.findIdx? p l = some i) :
    i < l.length ∧ p (l.getD i default) = true := by
  obtain ⟨_, h2, h3⟩ := findIdx?_go_some p l 0 i h
  rw [Nat.sub_zero] at h2 h3
  exact ⟨h2, h3⟩

/-- A satisfied predicate somewhere in the list makes `findIdx?` hit. -/
lemma findIdx?_of_exists {α : Type} (p : α → Bool) (l : List α)
    (h : ∃ x ∈ l, p x = true) : ∃ i, List.findIdx? p l = some i := by
  rcases hidx : List.findIdx? p l with _ | i
  · rw [List.findIdx?_eq_none_iff] at hidx
    obtain ⟨x, hx, hpx⟩ := h
    rw [hidx x hx] at hpx
    cases hpx
  · exact ⟨i, rfl⟩

/-- Shape of the fuzzy candidate window: at most 500 entries, ids strictly
descending, and every entry an id-row pair of the store with a non-NULL
fingerprint. -/
lemma fuzzy_candidates_spec (store : List Article) :
    (fuzzy_candidates store).length ≤ SIMHASH_CANDIDATE_LIMIT ∧
    ((fuzzy_candidates store).map Prod.fst).Pairwise (· > ·) ∧
    ∀ p ∈ fuzzy_candidates store, p.1 < store.length ∧
      store.getD p.1 default = p.2 ∧ p.2.content_fingerprint.isSome = true := by
  refine ⟨List.length_take_le _ _, ?_, ?_⟩
  · have h1 : (store.enum.map Prod.fst).Pairwise (· < ·) := by
      rw [List.enum_map_fst]
      exact List.pairwise_lt_range _
    have h2 : store.enum.Pairwise (fun a b => a.1 < b.1) :=
      List.pairwise_map.mp h1
    have h3 := h2.filter (fun q => q.2.content_fingerprint.isSome)
    have h4 : ((store.enum.filter
        (fun q => q.2.content_fingerprint.isSome)).reverse).Pairwise
        (fun a b => b.1 < a.1) := List.pairwise_reverse.mpr h3
    have h5 : (fuzzy_candidates store).Pairwise (fun a b => b.1 < a.1) :=
      h4.sublist (List.take_sublist _ _)
    exact List.pairwise_map.mpr h5
  · intro p hp
    have hp1 : p ∈ (store.enum.filter
        (fun q => q.2.content_fingerprint.isSome)).reverse :=
      List.mem_of_mem_take hp
    rw [List.mem_reverse] at hp1
    have hp2 := List.mem_filter.mp hp1
    refine ⟨List.fst_lt_of_mem_enum hp2.1, ?_, hp2.2⟩
    have hget := List.mem_enum_iff_getElem?.mp hp2.1
    rw [List.getD_eq_getElem?_getD, hget]
    rfl

/-- The scan step skips a candidate with a NULL fingerprint. -/
lemma fuzzy_scan_step_none (fp : String) (best : Option (Nat × Nat))
    (p : Nat × Article) (h : p.2.content_fingerprint = none) :
    fuzzy_scan_step fp best p = best := by
  simp [fuzzy_scan_step, h]

/-- The scan step skips a candidate with an empty fingerprint. -/
lemma fuzzy_scan_step_empty (fp : String) (best : Option (Nat × Nat))
    (p : Nat × Article) (h : p.2.content_fingerprint = some "") :
    fuzzy_scan_step fp best p = best := by
  simp [fuzzy_scan_step, h]

/-- The scan step on a valid candidate keeps the strictly closer of the
current best and the candidate. -/
lemma fuzzy_scan_step_valid (fp : String) (best : Option (Nat × Nat))
    (p : Nat × Article) (cp : String) (h : p.2.content_fingerprint = some cp)
    (hne : cp ≠ "") :
    fuzzy_scan_step fp best p =
      (if simhash_distance fp cp <
          (match best with
           | none => SIMHASH_BITS + 1
           | some q => q.2)
        then some (p.1, simhash_distance fp cp) else best) := by
  simp [fuzzy_scan_step, h, hne]

/-- A `none` outcome of the scan loop: the accumulator was empty and every
valid candidate sits at distance at least `SIMHASH_BITS + 1`. -/
lemma fuzzy_scan_foldl_none (fp : String) :
    ∀ (cands : List (Nat × Article)) (init : Option (Nat × Nat)),
      cands.foldl (fuzzy_scan_step fp) init = none →
      init = none ∧ ∀ p ∈ cands, ∀ cp, p.2.content_fingerprint = some cp →
        cp ≠ "" → SIMHASH_BITS + 1 ≤ simhash_distance fp cp := by
  intro cands
  induction cands with
  | nil => intro init h; exact ⟨h, by simp⟩
  | cons x xs ih =>
    intro init h
    rw [List.foldl_cons] at h
    obtain ⟨hstep, htail⟩ := ih (fuzzy_scan_step fp init x) h
    rcases hx : x.2.content_fingerprint with _ | cp
    · rw [fuzzy_scan_step_none fp init x hx] at hstep
      refine ⟨hstep, ?_⟩
      intro p hp cp hcp hne
      rcases List.mem_cons.mp hp with rfl | hmem
      · rw [hx] at hcp; cases hcp
      · exact htail p hmem cp hcp hne
    · by_cases hemp : cp = ""
      · subst hemp
        rw [fuzzy_scan_step_empty fp init x hx] at hstep
        refine ⟨hstep, ?_⟩
        intro p hp cp2 hcp hne
        rcases List.mem_cons.mp hp with rfl | hmem
        · rw [hx] at hcp
          injection hcp with hcc
          exact absurd hcc.symm hne
        · exact htail p hmem cp2 hcp hne
      · rw [fuzzy_scan_step_valid fp init x cp hx hemp] at hstep
        set bd := (match init with
          | none => SIMHASH_BITS + 1
          | some q => q.2) with hbd
        by_cases hd : simhash_distance fp cp < bd
        · rw [if_pos hd] at hstep
          cases hstep
        · rw [if_neg hd] at hstep
          subst hstep
          have hbd2 : SIMHASH_BITS + 1 ≤ simhash_distance fp cp := by
            have hb : bd = SIMHASH_BITS + 1 := hbd
            omega
          refine ⟨rfl, ?_⟩
          intro p hp cp2 hcp hne
          rcases List.mem_cons.mp hp with rfl | hmem
          · rw [hx] at hcp
            injection hcp with hcc
            subst hcc
            exact hbd2
          · exact htail p hmem cp2 hcp hne

/-- A `some (i, d)` outcome of the scan loop: the winner comes from the
accumulator or from a valid candidate at distance `d`, the result never
exceeds the accumulator's distance, a fresh accumulator forces `d ≤ 64`, and
`d` is a lower bound on every valid candidate's distance. -/
lemma fuzzy_scan_foldl_some (fp : String) :
    ∀ (cands : List (Nat × Article)) (init : Option (Nat × Nat)) (i d : Nat),
      cands.foldl (fuzzy_scan_step fp) init = some (i, d) →
      (init = some (i, d) ∨ ∃ p ∈ cands, p.1 = i ∧ ∃ cp,
          p.2.content_fingerprint = some cp ∧ cp ≠ "" ∧
          simhash_distance fp cp = d) ∧
      (∀ j e, init = some (j, e) → d ≤ e) ∧
      (init = none → d ≤ SIMHASH_BITS) ∧
      (∀ p ∈ cands, ∀ cp, p.2.content_fingerprint = some cp → cp ≠ "" →
        d ≤ simhash_distance fp cp) := by
  intro cands
  induction cands with
  | nil =>
    intro init i d h
    simp only [List.foldl_nil] at h
    refine ⟨Or.inl h, ?_, ?_, by simp⟩
    · intro j e hje
      rw [h] at hje
      injection hje with h1
      injection h1 with h2 h3
      omega
    · intro hnone
      rw [h] at hnone
      cases hnone
  | cons x xs ih =>
    intro init i d h
    rw [List.foldl_cons] at h
    obtain ⟨hA, hB, hC, hD⟩ := ih (fuzzy_scan_step fp init x) i d h
    rcases hx : x.2.content_fingerprint with _ | cp
    · rw [fuzzy_scan_step_none fp init x hx] at hA hB hC
      refine ⟨?_, hB, hC, ?_⟩
      · rcases hA with hA | ⟨p, hp, rest⟩
        · exact Or.inl hA
        · exact Or.inr ⟨p, List.mem_cons_of_mem x hp, rest⟩
      · intro p hp cp hcp hne
        rcases List.mem_cons.mp hp with rfl | hmem
        · rw [hx] at hcp; cases hcp
        · exact hD p hmem cp hcp hne
    · by_cases hemp : cp = ""
      · subst hemp
        rw [fuzzy_scan_step_empty fp init x hx] at hA hB hC
        refine ⟨?_, hB, hC, ?_⟩
        · rcases hA with hA | ⟨p, hp, rest⟩
          · exact Or.inl hA
          · exact Or.inr ⟨p, List.mem_cons_of_mem x hp, rest⟩
        · intro p hp cp2 hcp hne
          rcases List.mem_cons.mp hp with rfl | hmem
          · rw [hx] at hcp
            injection hcp with hcc
            exact absurd hcc.symm hne
          · exact hD p hmem cp2 hcp hne
      · rw [fuzzy_scan_step_valid fp init x cp hx hemp] at hA hB hC
        set bd := (match init with
          | none => SIMHASH_BITS + 1
          | some q => q.2) with hbd
        by_cases hd : simhash_distance fp cp < bd
        · rw [if_pos hd] at hA hB hC
          have hdle : d ≤ simhash_distance fp cp := hB x.1 _ rfl
          refine ⟨?_, ?_, ?_, ?_⟩
          · rcases hA with hA | ⟨p, hp, rest⟩
            · injection hA with h1
              injection h1 with h1a h1b
              exact Or.inr ⟨x, List.mem_cons_self x xs, h1a, cp, hx, hemp, h1b⟩
            · exact Or.inr ⟨p, List.mem_cons_of_mem x hp, rest⟩
          · intro j e hje
            subst hje
            have hd2 : simhash_distance fp cp < e := by rw [hbd] at hd; exact hd
            omega
          · intro hnone
            subst hnone
            have hd2 : simhash_distance fp cp < SIMHASH_BITS + 1 := by
              rw [hbd] at hd
              exact hd
            omega
          · intro p hp cp2 hcp hne
            rcases List.mem_cons.mp hp with rfl | hmem
            · rw [hx] at hcp
              injection hcp with hcc
              subst hcc
              exact hdle
            · exact hD p hmem cp2 hcp hne
        · rw [if_neg hd] at hA hB hC
          have hhead : d ≤ simhash_distance fp cp := by
            rcases hinit : init with _ | q
            · subst hinit
              have h64 := hC rfl
              have hd2 : ¬simhash_distance fp cp < SIMHASH_BITS + 1 := by
                rw [hbd] at hd
                exact hd
              omega
            · subst hinit
              have hqe := hB q.1 q.2 rfl
              have hd2 : ¬simhash_distance fp cp < q.2 := by
                rw [hbd] at hd
                exact hd
              omega
          refine ⟨?_, hB, hC, ?_⟩
          · rcases hA with hA | ⟨p, hp, rest⟩
            · exact Or.inl hA
            · exact Or.inr ⟨p, List.mem_cons_of_mem x hp, rest⟩
          · intro p hp cp2 hcp hne
            rcases List.mem_cons.mp hp with rfl | hmem
            · rw [hx] at hcp
              injection hcp with hcc
              subst hcc
              exact hhead
            · exact hD p hmem cp2 hcp hne

/-- The state produced for an item that reaches the upsert: counters bumped
and the store replaced by the upsert result for the built candidate. -/
def item_step_hit (env : PipelineEnv) (st : RunState) (item : FeedItem)
    (t : Int) (u : String) : RunState :=
  { st with
    fetched := st.fetched + 1
    processed := st.processed + 1
    store := (upsert_article env.token_hash st.store
      (pipeline_article env item t u)).1
    inserted := st.inserted +
      (if (upsert_article env.token_hash st.store
        (pipeline_article env item t u)).2.1 then 1 else 0)
    updated := st.updated +
      (if (upsert_article env.token_hash st.store
        (pipeline_article env item t u)).2.2 then 1 else 0) }

/-- An item that does not reach the upsert only bumps `fetched`. -/
lemma item_step_eq_miss (env : PipelineEnv) (lt fl : Option Int)
    (st : RunState × Bool) (item : FeedItem)
    (h : qualifies env lt fl item = false) :
    (item_step env lt fl st item).1 = { st.1 with fetched := st.1.fetched + 1 } := by
  rcases hpt : parse_timestamp item.time with _ | t
  · simp [item_step, hpt]
  · simp only [qualifies, hpt] at h
    simp only [item_step, hpt]
    rcases h1 : le_last lt t with _ | _
    · rcases h2 : below_floor fl t with _ | _
      · rcases hm : match_keywords (extract_item_text item) env.keywords with
          _ | ⟨k, ks⟩
        · simp [h1, h2, hm]
        · rcases hu : item.url with _ | u
          · simp [h1, h2, hm, hu]
          · by_cases hu0 : u = ""
            · simp [h1, h2, hm, hu, hu0]
            · rw [h1, h2, hm, hu] at h
              simp [hu0] at h
      · simp [h1, h2]
    · simp [h1]

/-- An item that reaches the upsert produces the hit state and keeps the
incoming stop flag. -/
lemma item_step_eq_hit (env : PipelineEnv) (lt fl : Option Int)
    (st : RunState × Bool) (item : FeedItem)
    (h : qualifies env lt fl item = true) :
    ∃ t u, parse_timestamp item.time = some t ∧ item.url = some u ∧ u ≠ "" ∧
      le_last lt t = false ∧ below_floor fl t = false ∧
      match_keywords (extract_item_text item) env.keywords ≠ [] ∧
      item_step env lt fl st item = (item_step_hit env st.1 item t u, st.2) := by
  rcases hpt : parse_timestamp item.time with _ | t
  · simp [qualifies, hpt] at h
  · simp only [qualifies, hpt, Bool.and_eq_true, Bool.not_eq_true'] at h
    obtain ⟨⟨⟨h1, h2⟩, h3⟩, h4⟩ := h
    rcases hu : item.url with _ | u
    · rw [hu] at h4
      cases h4
    · rw [hu] at h4
      have hu0 : u ≠ "" := by simpa using h4
      have hm : match_keywords (extract_item_text item) env.keywords ≠ [] := by
        intro hc
        rw [hc] at h3
        cases h3
      refine ⟨t, u, rfl, rfl, hu0, h1, h2, hm, ?_⟩
      simp only [item_step, hpt, h1, h2, hu, hu0, item_step_hit]
      simp [hm]

/-- The stop flag after one item: the incoming flag or the item's trigger —
an item can set `stop_paging` but never clear it, and a set flag does not
suppress the processing of later items. -/
lemma item_step_snd (env : PipelineEnv) (lt fl : Option Int)
    (st : RunState × Bool) (item : FeedItem) :
    (item_step env lt fl st item).2 = (st.2 || stop_trigger lt fl item) := by
  rcases hpt : parse_timestamp item.time with _ | t
  · simp [item_step, stop_trigger, hpt]
  · simp only [item_step, stop_trigger, hpt]
    rcases h1 : le_last lt t with _ | _
    · rcases h2 : below_floor fl t with _ | _
      · rcases hm : match_keywords (extract_item_text item) env.keywords with
          _ | ⟨k, ks⟩
        · simp [h1, h2, hm]
        · rcases hu : item.url with _ | u
          · simp [h1, h2, hm, hu]
          · by_cases hu0 : u = ""
            · simp [h1, h2, hm, hu, hu0]
            · simp [h1, h2, hm, hu, hu0]
      · simp [h1, h2]
    · simp [h1]

/-- The page fold only accumulates the stop flag: it is the incoming flag or
some item of the page triggering a stop condition. -/
lemma page_step_snd (env : PipelineEnv) (lt fl : Option Int)
    (st : RunState × Bool) (items : List FeedItem) :
    (page_step env lt fl st items).2 = (st.2 || items.any (stop_trigger lt fl)) := by
  induction items generalizing st with
  | nil => simp [page_step]
  | cons x xs ih =>
    have hcons : page_step env lt fl st (x :: xs) =
        page_step env lt fl (item_step env lt fl st x) xs := rfl
    rw [hcons, ih, item_step_snd, List.any_cons, Bool.or_assoc]

/-- The page fold never breaks out early: processing `xs ++ ys` is processing
`xs` and then processing `ys` from the intermediate state. -/
lemma page_step_append (env : PipelineEnv) (lt fl : Option Int)
    (st : RunState × Bool) (xs ys : List FeedItem) :
    page_step env lt fl st (xs ++ ys) =
      page_step env lt fl (page_step env lt fl st xs) ys :=
  List.foldl_append _ _ _ _

/-- `processed` counts exactly the items of a page that reach the upsert. -/
lemma page_step_processed (env : PipelineEnv) (lt fl : Option Int)
    (st : RunState × Bool) (items : List FeedItem) :
    (page_step env lt fl st items).1.processed =
      st.1.processed + items.countP (qualifies env lt fl) := by
  induction items generalizing st with
  | nil => simp [page_step]
  | cons x xs ih =>
    have hcons : page_step env lt fl st (x :: xs) =
        page_step env lt fl (item_step env lt fl st x) xs := rfl
    rw [hcons, ih, List.countP_cons]
    by_cases hq : qualifies env lt fl x = true
    · obtain ⟨t, u, _, _, _, _, _, _, heq⟩ := item_step_eq_hit env lt fl st x hq
      rw [heq]
      simp [item_step_hit, hq]
      omega
    · have hq' : qualifies env lt fl x = false := by
        revert hq
        cases qualifies env lt fl x <;> simp
      rw [item_step_eq_miss env lt fl st x hq']
      simp [hq']

/-- A page all of whose items stay out of the upsert changes no counter but
`fetched`, and leaves the store untouched. -/
lemma page_step_all_unqualified (env : PipelineEnv) (lt fl : Option Int)
    (st : RunState × Bool) (items : List FeedItem)
    (h : ∀ it ∈ items, qualifies env lt fl it = false) :
    (page_step env lt fl st items).1.store = st.1.store ∧
    (page_step env lt fl st items).1.processed = st.1.processed ∧
    (page_step env lt fl st items).1.inserted = st.1.inserted ∧
    (page_step env lt fl st items).1.updated = st.1.updated := by
  induction items generalizing st with
  | nil => exact ⟨rfl, rfl, rfl, rfl⟩
  | cons x xs ih =>
    have hcons : page_step env lt fl st (x :: xs) =
        page_step env lt fl (item_step env lt fl st x) xs := rfl
    have hx := item_step_eq_miss env lt fl st x (h x (List.mem_cons_self x xs))
    have htail := ih (item_step env lt fl st x)
      (fun it hit => h it (List.mem_cons_of_mem x hit))
    rw [hcons] at *
    refine ⟨?_, ?_, ?_, ?_⟩ <;>
      [rw [htail.1, hx]; rw [htail.2.1, hx]; rw [htail.2.2.1, hx];
       rw [htail.2.2.2, hx]]

/-- Zeta-expanded unfolding of one iteration of the page loop. -/
lemma run_pages_cons (env : PipelineEnv) (lt fl : Option Int) (page : Page)
    (rest : List Page) (n : Nat) (s : RunState) :
    run_pages env lt fl (page :: rest) n s =
      if page.items.isEmpty then s
      else
        if (page_step env lt fl (s, false) page.items).2 then
          (page_step env lt fl (s, false) page.items).1
        else
          match page.totalpage with
          | some tp =>
            if (n : Int) ≥ tp then (page_step env lt fl (s, false) page.items).1
            else run_pages env lt fl rest (n + 1)
              (page_step env lt fl (s, false) page.items).1
          | none => run_pages env lt fl rest (n + 1)
            (page_step env lt fl (s, false) page.items).1 := rfl

/-- An empty page ends the run unchanged. -/
lemma run_pages_cons_empty (env : PipelineEnv) (lt fl : Option Int)
    (page : Page) (rest : List Page) (n : Nat) (s : RunState)
    (h : page.items.isEmpty = true) :
    run_pages env lt fl (page :: rest) n s = s := by
  rw [run_pages_cons, if_pos h]

/-- A page that marks `stop_paging` ends the run after the whole page. -/
lemma run_pages_cons_stop (env : PipelineEnv) (lt fl : Option Int)
    (page : Page) (rest : List Page) (n : Nat) (s : RunState)
    (hemp : page.items.isEmpty = false)
    (hstop : (page_step env lt fl (s, false) page.items).2 = true) :
    run_pages env lt fl (page :: rest) n s =
      (page_step env lt fl (s, false) page.items).1 := by
  rw [run_pages_cons, if_neg (by simp [hemp]), if_pos hstop]

/-- Without stop mark and without a `totalpage` bound, the next page is
requested. -/
lemma run_pages_cons_next_none (env : PipelineEnv) (lt fl : Option Int)
    (page : Page) (rest : List Page) (n : Nat) (s : RunState)
    (hemp : page.items.isEmpty = false)
    (hstop : (page_step env lt fl (s, false) page.items).2 = false)
    (htp : page.totalpage = none) :
    run_pages env lt fl (page :: rest) n s =
      run_pages env lt fl rest (n + 1)
        (page_step env lt fl (s, false) page.items).1 := by
  rw [run_pages_cons, if_neg (by simp [hemp]), if_neg (by simp [hstop]), htp]

/-- Without stop mark and below the `totalpage` bound, the next page is
requested. -/
lemma run_pages_cons_next_some (env : PipelineEnv) (lt fl : Option Int)
    (page : Page) (rest : List Page) (n : Nat) (s : RunState) (tp : Int)
    (hemp : page.items.isEmpty = false)
    (hstop : (page_step env lt fl (s, false) page.items).2 = false)
    (htp : page.totalpage = some tp) (hlt : ¬(n : Int) ≥ tp) :
    run_pages env lt fl (page :: rest) n s =
      run_pages env lt fl rest (n + 1)
        (page_step env lt fl (s, false) page.items).1 := by
  rw [run_pages_cons, if_neg (by simp [hemp]), if_neg (by simp [hstop]), htp]
  exact if_neg hlt

/-- Without stop mark, reaching the reported `totalpage` ends the run. -/
lemma run_pages_cons_last (env : PipelineEnv) (lt fl : Option Int)
    (page : Page) (rest : List Page) (n : Nat) (s : RunState) (tp : Int)
    (hemp : page.items.isEmpty = false)
    (hstop : (page_step env lt fl (s, false) page.items).2 = false)
    (htp : page.totalpage = some tp) (hge : (n : Int) ≥ tp) :
    run_pages env lt fl (page :: rest) n s =
      (page_step env lt fl (s, false) page.items).1 := by
  rw [run_pages_cons, if_neg (by simp [hemp]), if_neg (by simp [hstop]), htp]
  exact if_pos hge

/-- A run over pages none of whose items reach the upsert leaves the store and
the `processed`, `inserted`, `updated` counters untouched. -/
lemma run_pages_all_unqualified (env : PipelineEnv) (lt fl : Option Int) :
    ∀ (pages : List Page) (n : Nat) (s : RunState),
      (∀ pg ∈ pages, ∀ it ∈ pg.items, qualifies env lt fl it = false) →
      (run_pages env lt fl pages n s).store = s.store ∧
      (run_pages env lt fl pages n s).processed = s.processed ∧
      (run_pages env lt fl pages n s).inserted = s.inserted ∧
      (run_pages env lt fl pages n s).updated = s.updated := by
  intro pages
  induction pages with
  | nil => intro n s _; exact ⟨rfl, rfl, rfl, rfl⟩
  | cons page rest ih =>
    intro n s h
    have hpage := page_step_all_unqualified env lt fl (s, false) page.items
      (h page (List.mem_cons_self page rest))
    have hrest : ∀ pg ∈ rest, ∀ it ∈ pg.items, qualifies env lt fl it = false :=
      fun pg hpg => h pg (List.mem_cons_of_mem page hpg)
    rcases hemp : page.items.isEmpty with _ | _
    · rcases hstop : (page_step env lt fl (s, false) page.items).2 with _ | _
      · have hih := ih (n + 1) (page_step env lt fl (s, false) page.items).1 hrest
        rcases htp : page.totalpage with _ | tp
        · rw [run_pages_cons_next_none env lt fl page rest n s hemp hstop htp]
          exact ⟨hih.1.trans hpage.1, (hih.2.1).trans hpage.2.1,
            (hih.2.2.1).trans hpage.2.2.1, (hih.2.2.2).trans hpage.2.2.2⟩
        · by_cases hge : (n : Int) ≥ tp
          · rw [run_pages_cons_last env lt fl page rest n s tp hemp hstop htp hge]
            exact hpage
          · rw [run_pages_cons_next_some env lt fl page rest n s tp hemp hstop
              htp hge]
            exact ⟨hih.1.trans hpage.1, (hih.2.1).trans hpage.2.1,
              (hih.2.2.1).trans hpage.2.2.1, (hih.2.2.2).trans hpage.2.2.2⟩
      · rw [run_pages_cons_stop env lt fl page rest n s hemp hstop]
        exact hpage
    · rw [run_pages_cons_empty env lt fl page rest n s hemp]
      exact ⟨rfl, rfl, rfl, rfl⟩

/-- Ensuring a fingerprint never changes the source timestamp. -/
lemma ensure_source_timestamp (hash : String → Nat) (a : Article) :
    (ensure_article_fingerprint hash a).1.source_timestamp =
      a.source_timestamp := by
  unfold ensure_article_fingerprint
  split
  · rfl
  · split
    · split <;> rfl
    · rfl

/-- `upsert_article` preserves a lower bound on every stored timestamp when
the candidate satisfies it: the insert adds the candidate, the merge writes
the candidate's timestamp. -/
lemma upsert_keeps_floor (hash : String → Nat) (store : List Article)
    (a : Article) (f : Int)
    (hst : ∀ r ∈ store, f ≤ r.source_timestamp)
    (ha : f ≤ a.source_timestamp) :
    ∀ r ∈ (upsert_article hash store a).1, f ≤ r.source_timestamp := by
  intro r hr
  rcases hloc : locate_existing_article store
      (ensure_article_fingerprint hash a).1
      (ensure_article_fingerprint hash a).2 with _ | i
  · simp only [upsert_article, hloc] at hr
    rcases List.mem_append.mp hr with h | h
    · exact hst r h
    · have hre : r = (ensure_article_fingerprint hash a).1 := by simpa using h
      rw [hre, ensure_source_timestamp]
      exact ha
  · simp only [upsert_article, hloc] at hr
    rcases List.mem_or_eq_of_mem_set hr with h | h
    · exact hst r h
    · rw [h, merge_article_eq]
      simpa [ensure_source_timestamp] using ha

/-- One item step under a floor `f` keeps every stored timestamp `≥ f`. -/
lemma item_step_keeps_floor (env : PipelineEnv) (lt : Option Int) (f : Int)
    (st : RunState × Bool) (item : FeedItem)
    (hst : ∀ r ∈ st.1.store, f ≤ r.source_timestamp) :
    ∀ r ∈ (item_step env lt (some f) st item).1.store,
      f ≤ r.source_timestamp := by
  by_cases hq : qualifies env lt (some f) item = true
  · obtain ⟨t, u, hpt, hu, hu0, hle, hbf, hm, heq⟩ :=
      item_step_eq_hit env lt (some f) st item hq
    rw [heq]
    refine upsert_keeps_floor env.token_hash st.1.store _ f hst ?_
    have hnf : ¬t < f := by
      simp only [below_floor, decide_eq_false_iff_not] at hbf
      exact hbf
    show f ≤ t
    omega
  · have hq' : qualifies env lt (some f) item = false := by
      revert hq
      cases qualifies env lt (some f) item <;> simp
    rw [item_step_eq_miss env lt (some f) st item hq']
    intro r hr
    exact hst r hr

/-- A full page under a floor `f` keeps every stored timestamp `≥ f`. -/
lemma page_step_keeps_floor (env : PipelineEnv) (lt : Option Int) (f : Int)
    (st : RunState × Bool) (items : List FeedItem)
    (hst : ∀ r ∈ st.1.store, f ≤ r.source_timestamp) :
    ∀ r ∈ (page_step env lt (some f) st items).1.store,
      f ≤ r.source_timestamp := by
  induction items generalizing st with
  | nil => exact hst
  | cons x xs ih =>
    have hcons : page_step env lt (some f) st (x :: xs) =
        page_step env lt (some f) (item_step env lt (some f) st x) xs := rfl
    rw [hcons]
    exact ih (item_step env lt (some f) st x)
      (item_step_keeps_floor env lt f st x hst)

/-- A whole run under a floor `f` keeps every stored timestamp `≥ f`. -/
lemma run_pages_keeps_floor (env : PipelineEnv) (lt : Option Int) (f : Int) :
    ∀ (pages : List Page) (n : Nat) (s : RunState),
      (∀ r ∈ s.store, f ≤ r.source_timestamp) →
      ∀ r ∈ (run_pages env lt (some f) pages n s).store,
        f ≤ r.source_timestamp := by
  intro pages
  induction pages with
  | nil => intro n s hst; exact hst
  | cons page rest ih =>
    intro n s hst
    have hpage := page_step_keeps_floor env lt f (s, false) page.items hst
    rcases hemp : page.items.isEmpty with _ | _
    · rcases hstop : (page_step env lt (some f) (s, false) page.items).2 with _ | _
      · rcases htp : page.totalpage with _ | tp
        · rw [run_pages_cons_next_none env lt (some f) page rest n s hemp hstop htp]
          exact ih (n + 1) _ hpage
        · by_cases hge : (n : Int) ≥ tp
          · rw [run_pages_cons_last env lt (some f) page rest n s tp hemp hstop
              htp hge]
            exact hpage
          · rw [run_pages_cons_next_some env lt (some f) page rest n s tp hemp
              hstop htp hge]
            exact ih (n + 1) _ hpage
      · rw [run_pages_cons_stop env lt (some f) page rest n s hemp hstop]
        exact hpage
    · rw [run_pages_cons_empty env lt (some f) page rest n s hemp]
      exact hst

/-! ### Claim theorems -/

/-- C9: for every timestamp `T` and store, `delete_articles_since T` removes
exactly the records whose `source_timestamp` is `≥ T`: every kept record is an
untouched record of the original store with timestamp `< T`, every record with
timestamp `< T` is kept (in order, as a sublist), and the returned count plus
the kept rows add up to the original row count, i.e. the count equals the
number of rows actually deleted. -/
theorem delete_articles_since_spec (since : Int) (store : List Article) :
    (∀ r ∈ (delete_articles_since since store).1,
      r ∈ store ∧ r.source_timestamp < since) ∧
    (∀ r ∈ store, r.source_timestamp < since →
      r ∈ (delete_articles_since since store).1) ∧
    (delete_articles_since since store).1.Sublist store ∧
    (delete_articles_since since store).2 +
      (delete_articles_since since store).1.length = store.length := by
  refine ⟨?_, ?_, ?_, delete_count_eq since store⟩
  · intro r hr
    have h := List.mem_filter.mp hr
    exact ⟨h.1, by simpa using h.2⟩
  · intro r hr ht
    exact List.mem_filter.mpr ⟨hr, by simpa using ht⟩
  · exact List.filter_sublist store

/-- Witness for C9 at a concrete store: the record timestamped 50 survives
`delete_articles_since 100` and indeed has timestamp `< 100`. -/
theorem delete_articles_since_spec_witness :
    mk_article "old" "u1" 50 ∈ [mk_article "old" "u1" 50, mk_article "new" "u2" 150] ∧
      (mk_article "old" "u1" 50).source_timestamp < 100 :=
  (delete_articles_since_spec 100
    [mk_article "old" "u1" 50, mk_article "new" "u2" 150]).1
    (mk_article "old" "u1" 50) (by decide)

/-- C2: the near-duplicate locator returns the first record with an identical
fingerprint when one exists (short-circuiting the fuzzy scan); otherwise it
scans the window of at most 500 most recently inserted fingerprinted records
in descending insertion order, and returns a candidate iff it is a
minimum-Hamming-distance candidate with distance ≤ 24, returning nothing when
every window candidate is farther than 24; `_locate_existing_article` falls
back to the exact url lookup whenever no (truthy) fingerprint is available or
no fingerprint match was found. -/
theorem find_similar_article_spec (store : List Article) (fp : String) :
    (∀ i, List.findIdx? (fun r => r.content_fingerprint == some fp) store =
        some i →
      find_similar_article store fp = some i ∧
      (store.getD i default).content_fingerprint = some fp) ∧
    ((∃ r ∈ store, r.content_fingerprint = some fp) →
      ∃ i, find_similar_article store fp = some i ∧
        (store.getD i default).content_fingerprint = some fp) ∧
    (fuzzy_candidates store).length ≤ SIMHASH_CANDIDATE_LIMIT ∧
    ((fuzzy_candidates store).map Prod.fst).Pairwise (· > ·) ∧
    (∀ p ∈ fuzzy_candidates store, p.1 < store.length ∧
      store.getD p.1 default = p.2 ∧ p.2.content_fingerprint.isSome = true) ∧
    (List.findIdx? (fun r => r.content_fingerprint == some fp) store = none →
      (∀ i, find_similar_article store fp = some i →
        ∃ p ∈ fuzzy_candidates store, p.1 = i ∧ ∃ cp,
          p.2.content_fingerprint = some cp ∧ cp ≠ "" ∧
          simhash_distance fp cp ≤ SIMHASH_MATCH_THRESHOLD ∧
          ∀ q ∈ fuzzy_candidates store, ∀ cq,
            q.2.content_fingerprint = some cq → cq ≠ "" →
            simhash_distance fp cp ≤ simhash_distance fp cq) ∧
      (find_similar_article store fp = none →
        ∀ q ∈ fuzzy_candidates store, ∀ cq,
          q.2.content_fingerprint = some cq → cq ≠ "" →
          SIMHASH_MATCH_THRESHOLD < simhash_distance fp cq)) ∧
    (∀ article, locate_existing_article store article none =
      find_by_url store article.url) ∧
    (∀ article, locate_existing_article store article (some "") =
      find_by_url store article.url) ∧
    (∀ article f, f ≠ "" → find_similar_article store f = none →
      locate_existing_article store article (some f) =
        find_by_url store article.url) ∧
    (∀ article f i, f ≠ "" → find_similar_article store f = some i →
      locate_existing_article store article (some f) = some i) := by
  have hexact : ∀ i,
      List.findIdx? (fun r => r.content_fingerprint == some fp) store =
        some i →
      find_similar_article store fp = some i ∧
      (store.getD i default).content_fingerprint = some fp := by
    intro i hidx
    obtain ⟨_, hp⟩ := findIdx?_some_getD _ store i hidx
    refine ⟨by simp [find_similar_article, hidx], ?_⟩
    exact beq_iff_eq.mp hp
  obtain ⟨hlen, hdesc, hmem⟩ := fuzzy_candidates_spec store
  refine ⟨hexact, ?_, hlen, hdesc, hmem, ?_, ?_, ?_, ?_, ?_⟩
  · intro ⟨r, hr, hrf⟩
    obtain ⟨i, hi⟩ := findIdx?_of_exists
      (fun r => r.content_fingerprint == some fp) store
      ⟨r, hr, beq_iff_eq.mpr hrf⟩
    exact ⟨i, hexact i hi⟩
  · intro hnone
    constructor
    · intro i hi
      simp only [find_similar_article, hnone] at hi
      rcases hscan : fuzzy_scan fp (fuzzy_candidates store) with _ | ⟨i0, d0⟩
      · rw [hscan] at hi
        cases hi
      · rw [hscan] at hi
        change (if d0 ≤ SIMHASH_MATCH_THRESHOLD then some i0 else none) =
          some i at hi
        by_cases hth : d0 ≤ SIMHASH_MATCH_THRESHOLD
        · rw [if_pos hth] at hi
          have hii : i0 = i := by injection hi
          subst hii
          simp only [fuzzy_scan] at hscan
          obtain ⟨hA, _, _, hD⟩ :=
            fuzzy_scan_foldl_some fp (fuzzy_candidates store) none i0 d0 hscan
          rcases hA with hA | ⟨p, hp, hpi, cp, hcp, hcpne, hcpd⟩
          · cases hA
          · exact ⟨p, hp, hpi, cp, hcp, hcpne, by omega,
              fun q hq cq hcq hcqne => by
                have := hD q hq cq hcq hcqne
                omega⟩
        · rw [if_neg hth] at hi
          cases hi
    · intro hres q hq cq hcq hcqne
      simp only [find_similar_article, hnone] at hres
      rcases hscan : fuzzy_scan fp (fuzzy_candidates store) with _ | ⟨i0, d0⟩
      · simp only [fuzzy_scan] at hscan
        obtain ⟨_, hall⟩ :=
          fuzzy_scan_foldl_none fp (fuzzy_candidates store) none hscan
        have := hall q hq cq hcq hcqne
        simp only [SIMHASH_BITS] at this
        simp only [SIMHASH_MATCH_THRESHOLD]
        omega
      · rw [hscan] at hres
        change (if d0 ≤ SIMHASH_MATCH_THRESHOLD then some i0 else none) =
          none at hres
        by_cases hth : d0 ≤ SIMHASH_MATCH_THRESHOLD
        · rw [if_pos hth] at hres
          cases hres
        · simp only [fuzzy_scan] at hscan
          obtain ⟨_, _, _, hD⟩ :=
            fuzzy_scan_foldl_some fp (fuzzy_candidates store) none i0 d0 hscan
          have := hD q hq cq hcq hcqne
          omega
  · intro article
    rfl
  · intro article
    simp [locate_existing_article]
  · intro article f hf hnone
    simp [locate_existing_article, hf, hnone]
  · intro article f i hf hsome
    simp [locate_existing_article, hf, hsome]

/-- Witness for C2 at a one-record store holding fingerprint `"00ff"`: the
exact lookup finds index 0 and that record carries the fingerprint. -/
theorem find_similar_article_spec_witness :
    find_similar_article
        [{ mk_article "t" "u" 5 with content_fingerprint := some "00ff" }]
        "00ff" = some 0 ∧
      (([{ mk_article "t" "u" 5 with content_fingerprint := some "00ff" }] :
          List Article).getD 0 default).content_fingerprint = some "00ff" :=
  (find_similar_article_spec
    [{ mk_article "t" "u" 5 with content_fingerprint := some "00ff" }]
    "00ff").1 0 (by decide)

/-- C3: on a non-empty token frequency table, each fingerprint bit `j` is set
iff `j` is outside the unconditionally cleared low-8 region, `j < 64`, and the
signed frequency-weighted sum at position `j` is strictly positive (a zero sum
leaves the bit unset); the formatted result is a 16-character string of
lower-case hex digits whose hex value is exactly the fingerprint; and for
text whose normalized form is empty the fingerprint is absent. -/
theorem simhash_fingerprint_spec (hash : String → Nat)
    (tokens : List (String × Nat)) (h : tokens ≠ []) :
    (∃ fp, simhash hash tokens = some fp ∧
      (∀ j, fp.testBit j = true ↔
        (SIMHASH_FUZZY_LOWER_BITS ≤ j ∧ j < SIMHASH_BITS ∧
          0 < bit_sum hash tokens j)) ∧
      ∃ s, format_simhash (simhash hash tokens) = some s ∧
        s.toList.length = 16 ∧
        (∀ c ∈ s.toList, c ∈ "0123456789abcdef".toList) ∧
        hex_digits_value s.toList = fp) ∧
    (∀ text, normalize_text text = "" →
      simhash hash (build_simhash_tokens text) = none) := by
  constructor
  · obtain ⟨fp, hfp, hbits⟩ := simhash_testBit hash tokens h
    have hlt : fp < 2 ^ 64 := simhash_lt hash tokens fp hfp hbits
    have hlt16 : fp < 16 ^ 16 := by
      have h1 : (16 : Nat) ^ 16 = 2 ^ 64 := by norm_num
      omega
    have hfuel : fp < 16 ^ (fp + 1) := by
      have h1 : fp < 16 ^ fp := Nat.lt_pow_self (by norm_num) fp
      have h2 : (16 : Nat) ^ fp ≤ 16 ^ (fp + 1) :=
        Nat.pow_le_pow_right (by norm_num) (Nat.le_succ fp)
      omega
    have hdlen : (nat_hex_digits fp).length ≤ 16 :=
      nat_hex_digits_aux_length fp fp 16 (by norm_num) hlt16
    refine ⟨fp, hfp, ?_, ?_⟩
    · intro j
      rw [hbits j]
      simp [Bool.and_assoc]
    · refine ⟨String.mk (left_pad '0' (SIMHASH_BITS / 4) (nat_hex_digits fp)),
        by rw [hfp]; rfl, ?_, ?_, ?_⟩
      · show (left_pad '0' (SIMHASH_BITS / 4) (nat_hex_digits fp)).length = 16
        simp only [left_pad, List.length_append, List.length_replicate]
        have : SIMHASH_BITS / 4 = 16 := rfl
        omega
      · intro c hc
        simp only [left_pad] at hc
        have hc' : c ∈ List.replicate (SIMHASH_BITS / 4 -
            (nat_hex_digits fp).length) '0' ++ nat_hex_digits fp := hc
        rcases List.mem_append.mp hc' with hrep | hdig
        · have := List.eq_of_mem_replicate hrep
          subst this
          decide
        · exact nat_hex_digits_aux_chars fp fp hfuel c hdig
      · show hex_digits_value (left_pad '0' (SIMHASH_BITS / 4)
          (nat_hex_digits fp)) = fp
        rw [left_pad, hex_digits_value_pad]
        exact nat_hex_digits_aux_value fp fp hfuel
  · intro text ht
    simp [build_simhash_tokens, ht, simhash]

/-- Witness for C3 at the one-token table of the single-character text `"a"`
under the constant-zero token hash: the fingerprint is present and formats to
sixteen hex characters. -/
theorem simhash_fingerprint_spec_witness :
    ([("a", 3)] : List (String × Nat)) ≠ [] ∧
      ((∃ fp, simhash (fun _ => 0) [("a", 3)] = some fp ∧
        (∀ j, fp.testBit j = true ↔
          (SIMHASH_FUZZY_LOWER_BITS ≤ j ∧ j < SIMHASH_BITS ∧
            0 < bit_sum (fun _ => 0) [("a", 3)] j)) ∧
        ∃ s, format_simhash (simhash (fun _ => 0) [("a", 3)]) = some s ∧
          s.toList.length = 16 ∧
          (∀ c ∈ s.toList, c ∈ "0123456789abcdef".toList) ∧
          hex_digits_value s.toList = fp) ∧
      (∀ text, normalize_text text = "" →
        simhash (fun _ => 0) (build_simhash_tokens text) = none)) :=
  ⟨by decide, simhash_fingerprint_spec (fun _ => 0) [("a", 3)] (by decide)⟩

/-- C1: `upsert_article` persists the candidate (with its fingerprint
ensured) as a brand-new record and returns `(inserted := true,
updated := false)` exactly when the locator finds no existing match; when a
match at index `i` exists, the result replaces that record by the merge that
carries the candidate's value of each of the thirteen mutable fields (leaving
`url` and `fetched_at` untouched), returning `(false, updated)` where
`updated = true` iff at least one of the thirteen fields differed. -/
theorem upsert_article_spec (hash : String → Nat) (store : List Article)
    (article : Article) :
    (locate_existing_article store (ensure_article_fingerprint hash article).1 (ensure_article_fingerprint hash article).2 = none ↔
      upsert_article hash store article = (store ++ [(ensure_article_fingerprint hash article).1], true, false)) ∧
    ∀ i, locate_existing_article store (ensure_article_fingerprint hash article).1 (ensure_article_fingerprint hash article).2 = some i →
      upsert_article hash store article =
        (store.set i (merge_article (store.getD i default) (ensure_article_fingerprint hash article).1).1, false, (merge_article (store.getD i default) (ensure_article_fingerprint hash article).1).2) ∧
      (merge_article (store.getD i default) (ensure_article_fingerprint hash article).1).1.title = (ensure_article_fingerprint hash article).1.title ∧
      (merge_article (store.getD i default) (ensure_article_fingerprint hash article).1).1.description = (ensure_article_fingerprint hash article).1.description ∧
      (merge_article (store.getD i default) (ensure_article_fingerprint hash article).1).1.thumbnail = (ensure_article_fingerprint hash article).1.thumbnail ∧
      (merge_article (store.getD i default) (ensure_article_fingerprint hash article).1).1.extra = (ensure_article_fingerprint hash article).1.extra ∧
      (merge_article (store.getD i default) (ensure_article_fingerprint hash article).1).1.content_fingerprint = (ensure_article_fingerprint hash article).1.content_fingerprint ∧
      (merge_article (store.getD i default) (ensure_article_fingerprint hash article).1).1.source_timestamp = (ensure_article_fingerprint hash article).1.source_timestamp ∧
      (merge_article (store.getD i default) (ensure_article_fingerprint hash article).1).1.matched_keywords = (ensure_article_fingerprint hash article).1.matched_keywords ∧
      (merge_article (store.getD i default) (ensure_article_fingerprint hash article).1).1.local_sentiment_score = (ensure_article_fingerprint hash article).1.local_sentiment_score ∧
      (merge_article (store.getD i default) (ensure_article_fingerprint hash article).1).1.local_is_negative = (ensure_article_fingerprint hash article).1.local_is_negative ∧
      (merge_article (store.getD i default) (ensure_article_fingerprint hash article).1).1.llm_classification = (ensure_article_fingerprint hash article).1.llm_classification ∧
      (merge_article (store.getD i default) (ensure_article_fingerprint hash article).1).1.llm_confidence = (ensure_article_fingerprint hash article).1.llm_confidence ∧
      (merge_article (store.getD i default) (ensure_article_fingerprint hash article).1).1.reason = (ensure_article_fingerprint hash article).1.reason ∧
      (merge_article (store.getD i default) (ensure_article_fingerprint hash article).1).1.raw_payload = (ensure_article_fingerprint hash article).1.raw_payload ∧
      (merge_article (store.getD i default) (ensure_article_fingerprint hash article).1).1.url = (store.getD i default).url ∧
      (merge_article (store.getD i default) (ensure_article_fingerprint hash article).1).1.fetched_at = (store.getD i default).fetched_at ∧
      ((merge_article (store.getD i default) (ensure_article_fingerprint hash article).1).2 = true ↔
        ¬((ensure_article_fingerprint hash article).1.title = (store.getD i default).title ∧
          (ensure_article_fingerprint hash article).1.description = (store.getD i default).description ∧
          (ensure_article_fingerprint hash article).1.thumbnail = (store.getD i default).thumbnail ∧
          (ensure_article_fingerprint hash article).1.extra = (store.getD i default).extra ∧
          (ensure_article_fingerprint hash article).1.content_fingerprint = (store.getD i default).content_fingerprint ∧
          (ensure_article_fingerprint hash article).1.source_timestamp = (store.getD i default).source_timestamp ∧
          (ensure_article_fingerprint hash article).1.matched_keywords = (store.getD i default).matched_keywords ∧
          (ensure_article_fingerprint hash article).1.local_sentiment_score = (store.getD i default).local_sentiment_score ∧
          (ensure_article_fingerprint hash article).1.local_is_negative = (store.getD i default).local_is_negative ∧
          (ensure_article_fingerprint hash article).1.llm_classification = (store.getD i default).llm_classification ∧
          (ensure_article_fingerprint hash article).1.llm_confidence = (store.getD i default).llm_confidence ∧
          (ensure_article_fingerprint hash article).1.reason = (store.getD i default).reason ∧
          (ensure_article_fingerprint hash article).1.raw_payload = (store.getD i default).raw_payload)) := by
  rcases h : locate_existing_article store (ensure_article_fingerprint hash article).1 (ensure_article_fingerprint hash article).2 with _ | i
  · refine ⟨⟨fun _ => by simp [upsert_article, h], fun _ => rfl⟩, ?_⟩
    intro i hi
    exact absurd hi (by simp)
  · constructor
    · constructor
      · intro hnone
        exact absurd hnone (by simp)
      · intro heq
        have h2 := congrArg (fun t => t.2.1) heq
        simp [upsert_article, h] at h2
    · intro i2 hi2
      have hii : i = i2 := by injection hi2
      subst hii
      refine ⟨by simp [upsert_article, h], ?_⟩
      rw [merge_article_eq]
      refine ⟨rfl, rfl, rfl, rfl, rfl, rfl, rfl, rfl, rfl, rfl, rfl, rfl, rfl,
        rfl, rfl, ?_⟩
      simp only [Bool.or_eq_true, decide_eq_true_eq]
      tauto

/-- Witness for C1: on an empty store the locator finds nothing and the
candidate is inserted with `(true, false)`. -/
theorem upsert_article_spec_witness :
    upsert_article (fun _ => 0) [] (mk_article "t" "u" 5) =
      ([] ++ [(ensure_article_fingerprint (fun _ => 0) (mk_article "t" "u" 5)).1],
        true, false) :=
  (upsert_article_spec (fun _ => 0) [] (mk_article "t" "u" 5)).1.mp (by decide)

/-- C10: for every candidate article and store, the `(inserted, updated)` pair
returned by `upsert_article` is never `(true, true)`: the insert path reports
`updated = false` and the existing-match path reports `inserted = false`. -/
theorem upsert_article_not_both (hash : String → Nat) (store : List Article)
    (article : Article) :
    ((upsert_article hash store article).2.1 &&
      (upsert_article hash store article).2.2) = false := by
  simp only [upsert_article]
  rcases locate_existing_article store (ensure_article_fingerprint hash article).1
      (ensure_article_fingerprint hash article).2 with _ | i <;> simp

/-- C7: the LLM classifier's `classify` is a total function of the attempt
outcome (the Python method catches every exception its attempt can raise), and
whenever the classifier is configured and the attempt fails — the state in
which its (single-attempt) retry budget is exhausted — the result is the
sentinel `("error", 0.0)`, so a flaky classification never aborts the run. -/
theorem llm_classify_error_sentinel (api_key : String) (response : LLMResponse)
    (hkey : api_key ≠ "") (hfail : llm_response_failed response = true) :
    llm_classify api_key response = ("error", 0) := by
  cases response <;> simp_all [llm_classify, llm_response_failed]

/-- Witness for C7: a configured key and a transport failure yield the
sentinel. -/
theorem llm_classify_error_sentinel_witness :
    "token" ≠ "" ∧ llm_response_failed LLMResponse.transport_failure = true ∧
      llm_classify "token" LLMResponse.transport_failure = ("error", 0) :=
  ⟨by decide, by decide,
    llm_classify_error_sentinel "token" LLMResponse.transport_failure
      (by decide) (by decide)⟩

/-! ### Concrete demonstration inputs used by witnesses -/

/-- A concrete 64-bit token hash: fingerprints of the one-character texts
`"a"`, `"b"`, `"c"` come out pairwise at Hamming distances 8, 40 and 32. -/
def demo_hash : String → Nat := fun s =>
  if s = "a" then 0
  else if s = "b" then 0xff00
  else if s = "c" then 0xffffffff00000000
  else 0

/-- A concrete pipeline environment with pure collaborators. -/
def demo_env : PipelineEnv :=
  { keywords := ["a", "b", "c"], token_hash := demo_hash,
    local_classify := fun _ => ((0 : ℚ), true),
    llm_classify := fun _ => ("negative", (1 : ℚ)), now := 100000 }

def demo_state : RunState :=
  { store := [], fetched := 0, processed := 0, inserted := 0, updated := 0 }

/-- The state a run starts from: the given store and zeroed counters. -/
def initial_state (store : List Article) : RunState :=
  { store := store, fetched := 0, processed := 0, inserted := 0, updated := 0 }

/-- Feed for the idempotence counterexample: `a` (t=100, url `ua`) is
inserted; `x` (t=300, url `ux`) fuzzy-merges into it (distance 8); `b`
(t=200, url `ua`) url-merges into it, overwriting both the fingerprint (now
far from `x`) and the timestamp (200 < 300). -/
def demo_item_a : FeedItem :=
  ⟨some "a", none, some "ua", none, none, TimeField.num 100⟩
def demo_item_x : FeedItem :=
  ⟨some "b", none, some "ux", none, none, TimeField.num 300⟩
def demo_item_b : FeedItem :=
  ⟨some "c", none, some "ua", none, none, TimeField.num 200⟩
def demo_pages : List Page :=
  [⟨[demo_item_a, demo_item_x, demo_item_b], some 1⟩]

/-! ### Pipeline claim theorems -/

/-- C4: when an item of a page triggers a stop condition (timestamp at or
below `last_timestamp`, or below the effective floor), the run stops
requesting pages only after the whole page: the result does not depend on any
later page, the page fold still evaluates every remaining item after the
trigger, and a qualifying later item is still ingested (its upsert runs and
`processed` is incremented) regardless of the stop mark. -/
theorem pagination_stop_spec (env : PipelineEnv) (store : List Article)
    (min_timestamp : Option Int) (xs ys : List FeedItem) (i : FeedItem)
    (tp : Option Int) (rest : List Page)
    (htrig : stop_trigger (get_latest_timestamp store)
      (effective_floor min_timestamp (get_latest_timestamp store) env.now)
      i = true) :
    run_pipeline env ({ items := xs ++ i :: ys, totalpage := tp } :: rest)
        min_timestamp store =
      run_pipeline env [{ items := xs ++ i :: ys, totalpage := tp }]
        min_timestamp store ∧
    (∀ st : RunState × Bool,
      page_step env (get_latest_timestamp store)
        (effective_floor min_timestamp (get_latest_timestamp store) env.now)
        st (xs ++ i :: ys) =
      page_step env (get_latest_timestamp store)
        (effective_floor min_timestamp (get_latest_timestamp store) env.now)
        (item_step env (get_latest_timestamp store)
          (effective_floor min_timestamp (get_latest_timestamp store) env.now)
          (page_step env (get_latest_timestamp store)
            (effective_floor min_timestamp (get_latest_timestamp store) env.now)
            st xs) i) ys) ∧
    (∀ (st : RunState × Bool) (j : FeedItem),
      qualifies env (get_latest_timestamp store)
        (effective_floor min_timestamp (get_latest_timestamp store) env.now)
        j = true →
      (item_step env (get_latest_timestamp store)
        (effective_floor min_timestamp (get_latest_timestamp store) env.now)
        st j).1.processed = st.1.processed + 1 ∧
      ∃ t u, parse_timestamp j.time = some t ∧ j.url = some u ∧
        (item_step env (get_latest_timestamp store)
          (effective_floor min_timestamp (get_latest_timestamp store) env.now)
          st j).1.store =
        (upsert_article env.token_hash st.1.store
          (pipeline_article env j t u)).1) := by
  refine ⟨?_, ?_, ?_⟩
  · have hemp : ({ items := xs ++ i :: ys, totalpage := tp } : Page).items.isEmpty
        = false := by
      cases xs <;> rfl
    have hstop : (page_step env (get_latest_timestamp store)
        (effective_floor min_timestamp (get_latest_timestamp store) env.now)
        (initial_state store, false) (xs ++ i :: ys)).2 = true := by
      rw [page_step_snd]
      simp only [Bool.false_or, List.any_eq_true]
      exact ⟨i, by simp, htrig⟩
    have h := run_pages_cons_stop env (get_latest_timestamp store)
      (effective_floor min_timestamp (get_latest_timestamp store) env.now)
      { items := xs ++ i :: ys, totalpage := tp } rest 1
      (initial_state store) hemp hstop
    have h2 := run_pages_cons_stop env (get_latest_timestamp store)
      (effective_floor min_timestamp (get_latest_timestamp store) env.now)
      { items := xs ++ i :: ys, totalpage := tp } [] 1
      (initial_state store) hemp hstop
    exact h.trans h2.symm
  · intro st
    rw [page_step_append]
    rfl
  · intro st j hq
    obtain ⟨t, u, hpt, hu, _, _, _, _, heq⟩ := item_step_eq_hit env
      (get_latest_timestamp store)
      (effective_floor min_timestamp (get_latest_timestamp store) env.now)
      st j hq
    exact ⟨by rw [heq]; rfl, t, u, hpt, hu, by rw [heq]; rfl⟩

/-- C6: the effective floor is the caller's minimum timestamp, defaulting to
the start of the current UTC day only when both the caller floor is absent
and the store is empty; under that default every record the run leaves in the
store is timestamped at or after that midnight. -/
theorem default_floor_spec (env : PipelineEnv) :
    (∀ now, effective_floor none none now = some (start_of_utc_day now)) ∧
    (∀ m last now, effective_floor (some m) last now = some m) ∧
    (∀ min_ts l now, effective_floor min_ts (some l) now = min_ts) ∧
    (∀ pages, ∀ r ∈ (run_pipeline env pages none []).store,
      start_of_utc_day env.now ≤ r.source_timestamp) := by
  refine ⟨fun _ => rfl, fun _ _ _ => rfl, ?_, ?_⟩
  · intro min_ts l now
    cases min_ts <;> rfl
  · intro pages r hr
    exact run_pages_keeps_floor env none (start_of_utc_day env.now) pages 1
      demo_state (by simp [demo_state]) r hr

/-- C8: an item whose concatenated title and description matches no keyword
leaves the store and the `processed`, `inserted`, `updated` counters
untouched (only `fetched` advances), and over a page `processed` counts
exactly the items that pass all gates and are fed into `upsert_article` —
every such item triggers exactly one upsert of its built candidate. -/
theorem keyword_gating_spec (env : PipelineEnv) (lt fl : Option Int) :
    (∀ (st : RunState × Bool) (item : FeedItem),
      match_keywords (extract_item_text item) env.keywords = [] →
      (item_step env lt fl st item).1.store = st.1.store ∧
      (item_step env lt fl st item).1.processed = st.1.processed ∧
      (item_step env lt fl st item).1.inserted = st.1.inserted ∧
      (item_step env lt fl st item).1.updated = st.1.updated ∧
      (item_step env lt fl st item).1.fetched = st.1.fetched + 1) ∧
    (∀ (st : RunState × Bool) (items : List FeedItem),
      (page_step env lt fl st items).1.processed =
        st.1.processed + items.countP (qualifies env lt fl)) ∧
    (∀ (st : RunState × Bool) (item : FeedItem),
      qualifies env lt fl item = true →
      (item_step env lt fl st item).1.processed = st.1.processed + 1 ∧
      ∃ t u, parse_timestamp item.time = some t ∧ item.url = some u ∧
        (item_step env lt fl st item).1.store =
          (upsert_article env.token_hash st.1.store
            (pipeline_article env item t u)).1) := by
  refine ⟨?_, page_step_processed env lt fl, ?_⟩
  · intro st item h
    have hq : qualifies env lt fl item = false := by
      unfold qualifies
      rcases hpt : parse_timestamp item.time with _ | t
      · rfl
      · simp [h]
    rw [item_step_eq_miss env lt fl st item hq]
    exact ⟨rfl, rfl, rfl, rfl, rfl⟩
  · intro st item hq
    obtain ⟨t, u, hpt, hu, _, _, _, _, heq⟩ :=
      item_step_eq_hit env lt fl st item hq
    exact ⟨by rw [heq]; rfl, t, u, hpt, hu, by rw [heq]; rfl⟩

/-- C5 as stated is false: on this concrete feed the first run collapses all
three items into one record whose final timestamp (200) is below the
timestamp of item `x` (300), whose fingerprint was meanwhile overwritten by a
url-merge; the second identical run therefore re-processes `x`, finds no
match, and inserts it: `inserted = 1` and `processed = 1`, not zero. -/
theorem run_pipeline_not_idempotent :
    ¬((run_pipeline demo_env demo_pages (some 0)
        (run_pipeline demo_env demo_pages (some 0) []).store).inserted = 0 ∧
      (run_pipeline demo_env demo_pages (some 0)
        (run_pipeline demo_env demo_pages (some 0) []).store).processed = 0) := by
  decide

/-- C5 amended: a second run with identical feed data and floor inserts and
processes nothing — and leaves the store untouched — provided every feed
item's parseable timestamp is at most the latest persisted source timestamp
(which the first run does not always guarantee, since merges can overwrite a
record's timestamp with an older one). -/
theorem run_pipeline_stale_feed_spec (env : PipelineEnv) (pages : List Page)
    (min_timestamp : Option Int) (store : List Article) (L : Int)
    (hlast : get_latest_timestamp store = some L)
    (hold : ∀ pg ∈ pages, ∀ it ∈ pg.items, ∀ t,
      parse_timestamp it.time = some t → t ≤ L) :
    (run_pipeline env pages min_timestamp store).inserted = 0 ∧
    (run_pipeline env pages min_timestamp store).processed = 0 ∧
    (run_pipeline env pages min_timestamp store).store = store := by
  have hq : ∀ pg ∈ pages, ∀ it ∈ pg.items,
      qualifies env (get_latest_timestamp store)
        (effective_floor min_timestamp (get_latest_timestamp store) env.now)
        it = false := by
    intro pg hpg it hit
    unfold qualifies
    rcases hpt : parse_timestamp it.time with _ | t
    · rfl
    · have hle : le_last (get_latest_timestamp store) t = true := by
        rw [hlast]
        simp only [le_last]
        exact decide_eq_true (hold pg hpg it hit t hpt)
      simp [hle]
  have h := run_pages_all_unqualified env (get_latest_timestamp store)
    (effective_floor min_timestamp (get_latest_timestamp store) env.now)
    pages 1 (initial_state store) hq
  exact ⟨h.2.2.1, h.2.1, h.1⟩

def demo_stop_store : List Article := [mk_article "seed" "useed" 100]
def demo_stop_old : FeedItem :=
  ⟨some "a", none, some "uo", none, none, TimeField.num 50⟩
def demo_stop_new : FeedItem :=
  ⟨some "b", none, some "un", none, none, TimeField.num 200⟩

/-- Witness for C4: with one persisted record at t=100, an old item (t=50)
marks the stop, and the run on two feed pages equals the run on the first
page alone. -/
theorem pagination_stop_spec_witness :
    stop_trigger (get_latest_timestamp demo_stop_store)
      (effective_floor (some 0) (get_latest_timestamp demo_stop_store)
        demo_env.now) demo_stop_old = true ∧
    run_pipeline demo_env
        ({ items := [] ++ demo_stop_old :: [demo_stop_new],
           totalpage := some 5 } ::
          [{ items := [demo_stop_new], totalpage := some 5 }])
        (some 0) demo_stop_store =
      run_pipeline demo_env
        [{ items := [] ++ demo_stop_old :: [demo_stop_new],
           totalpage := some 5 }]
        (some 0) demo_stop_store :=
  ⟨by decide, (pagination_stop_spec demo_env demo_stop_store (some 0) []
    [demo_stop_new] demo_stop_old (some 5)
    [{ items := [demo_stop_new], totalpage := some 5 }] (by decide)).1⟩

def demo_new_item : FeedItem :=
  ⟨some "a", none, some "unew", none, none, TimeField.num 90000⟩
def demo_old_item : FeedItem :=
  ⟨some "a", none, some "uold", none, none, TimeField.num 50000⟩
def demo_floor_pages : List Page :=
  [⟨[demo_new_item, demo_old_item], some 1⟩]

/-- Witness for C6: with `now = 100000` (midnight 86400), an empty store and
no caller floor, the run keeps the item at t=90000 and the stored record's
timestamp is at or after midnight. -/
theorem default_floor_spec_witness :
    (run_pipeline demo_env demo_floor_pages none []).store.getD 0 default ∈
      (run_pipeline demo_env demo_floor_pages none []).store ∧
    start_of_utc_day demo_env.now ≤
      ((run_pipeline demo_env demo_floor_pages none []).store.getD 0
        default).source_timestamp :=
  ⟨by decide, (default_floor_spec demo_env).2.2.2 demo_floor_pages _ (by decide)⟩

def demo_nokey_item : FeedItem :=
  ⟨some "zzz", none, some "uz", none, none, TimeField.num 10⟩

/-- Witness for C8: an item matching no keyword changes nothing but the
`fetched` counter. -/
theorem keyword_gating_spec_witness :
    (item_step demo_env none none (demo_state, false) demo_nokey_item).1.store =
      (demo_state, false).1.store ∧
    (item_step demo_env none none (demo_state, false) demo_nokey_item).1.processed =
      (demo_state, false).1.processed ∧
    (item_step demo_env none none (demo_state, false) demo_nokey_item).1.inserted =
      (demo_state, false).1.inserted ∧
    (item_step demo_env none none (demo_state, false) demo_nokey_item).1.updated =
      (demo_state, false).1.updated ∧
    (item_step demo_env none none (demo_state, false) demo_nokey_item).1.fetched =
      (demo_state, false).1.fetched + 1 :=
  (keyword_gating_spec demo_env none none).1 (demo_state, false) demo_nokey_item
    (by decide)

def demo_stale_store : List Article := [mk_article "seed" "u" 100]
def demo_stale_item : FeedItem :=
  ⟨some "a", none, some "u2", none, none, TimeField.num 50⟩
def demo_stale_pages : List Page := [⟨[demo_stale_item], some 1⟩]

/-- Witness for the amended C5: every feed timestamp (50) is at most the
latest persisted timestamp (100), so the run inserts and processes nothing
and the store is unchanged. -/
theorem run_pipeline_stale_feed_spec_witness :
    (run_pipeline demo_env demo_stale_pages none demo_stale_store).inserted = 0 ∧
    (run_pipeline demo_env demo_stale_pages none demo_stale_store).processed = 0 ∧
    (run_pipeline demo_env demo_stale_pages none demo_stale_store).store =
      demo_stale_store :=
  run_pipeline_stale_feed_spec demo_env demo_stale_pages none demo_stale_store
    100 (by decide)
    (by
      intro pg hpg it hit t hpt
      simp only [demo_stale_pages, List.mem_singleton] at hpg
      subst hpg
      simp only [demo_stale_item, List.mem_singleton] at hit
      subst hit
      have h : some (50 : Int) = some t := hpt
      injection h with h50
      omega)

end FinancialBadNews
